import Mathlib

/-!
Verification of the indiainflation ETL core (src/etl/fetch_mospi.py,
src/etl/phase3_pipeline.py, src/etl/utils.py, src/etl/models.py).

The Python pipeline is shallowly embedded: dataframes become association
lists of cells, the SQL tables become Lean lists, SQLAlchemy transactions
become pure state transformers on a `DB` record, and exceptions become
`Except` values.  Machine-level detail that no claim touches (Unicode NFKD
on non-ASCII characters, the exact repr of Python floats) is modelled by
total functions that agree with CPython on every input exercised here and
is flagged by a comment at the definition.
-/

namespace IndiaInflation

/-! ## Python string primitives (ASCII model) -/

/-- Python whitespace characters recognised by `str.strip` and the regex
class `\s` (ASCII range): space, tab, newline, carriage return, vertical
tab, form feed. -/
def pySpace (c : Char) : Bool :=
  c.toNat = 32 || c.toNat = 9 || c.toNat = 10 || c.toNat = 13 ||
    c.toNat = 11 || c.toNat = 12

/-- ASCII letter or digit, the `[a-zA-Z0-9]` class. -/
def asciiAlnum (c : Char) : Bool :=
  (97 ≤ c.toNat && c.toNat ≤ 122) || (65 ≤ c.toNat && c.toNat ≤ 90) ||
    (48 ≤ c.toNat && c.toNat ≤ 57)

/-- ASCII lower-casing, the effect of Python `str.lower` on ASCII text.
Non-ASCII input never survives `slugify`'s ASCII projection, so the
ASCII model is exact wherever `lower` matters below. -/
def pyLowerChar (c : Char) : Char :=
  if 65 ≤ c.toNat && c.toNat ≤ 90 then Char.ofNat (c.toNat + 32) else c

/-- Model of `unicodedata.normalize("NFKD", ·).encode("ascii", "ignore")`:
ASCII characters are kept unchanged and all other characters are dropped.
(CPython additionally keeps the ASCII part of a compatibility
decomposition, e.g. "é" → "e"; every concrete string appearing in the
claims below is pure ASCII, where this model is exact.) -/
def asciiFold (c : Char) : List Char :=
  if c.toNat < 128 then [c] else []

/-- `str.strip()` on a character list. -/
def stripChars (l : List Char) : List Char :=
  ((l.dropWhile pySpace).reverse.dropWhile pySpace).reverse

/-- Characters kept by the first substitution in `slugify`,
`re.sub(r"[^a-zA-Z0-9\s-]", "", ·)`. -/
def keepSlugChar (c : Char) : Bool :=
  asciiAlnum c || pySpace c || c = '-'

/-- Characters collapsed by the second substitution in `slugify`,
the class `[\s_-]`. -/
def collapseClass (c : Char) : Bool :=
  pySpace c || c = '_' || c = '-'

/-- `re.sub(r"[\s_-]+", "-", ·)`: each maximal run of `[\s_-]` characters
becomes a single hyphen.  `inRun` records whether the previous character
belonged to the current run. -/
def collapseAux : Bool → List Char → List Char
  | _, [] => []
  | inRun, c :: rest =>
    if collapseClass c then
      if inRun then collapseAux true rest
      else '-' :: collapseAux true rest
    else c :: collapseAux false rest

/-- `etl.utils.slugify` on character lists: ASCII projection, removal of
`[^a-zA-Z0-9\s-]`, `strip`, `lower`, and collapsing `[\s_-]+` to `-`. -/
def slugifyChars (l : List Char) : List Char :=
  collapseAux false ((stripChars ((l.flatMap asciiFold).filter keepSlugChar)).map pyLowerChar)

/-- `etl.utils.slugify`. -/
def slugify (s : String) : String :=
  ⟨slugifyChars s.data⟩

/-- `value.strip().lower()`, as used by the fallback branch of
`_normalize_alias`. -/
def pyStripLower (s : String) : String :=
  ⟨(stripChars s.data).map pyLowerChar⟩

/-- `etl.fetch_mospi._normalize_alias`: the slug of the value, falling back
to the stripped lower-cased value when the slug is empty (`slug or ...`). -/
def normalizeAlias (value : String) : String :=
  let slug := slugify value
  if slug = "" then pyStripLower value else slug

/-! ## Decimal rendering of counters (Python f-string `{counter}`) -/

/-- The decimal digit character for `d < 10`. -/
def digitChar (d : Nat) : Char := Char.ofNat (48 + d)

/-- Fuel-driven decimal rendering; the fuel `n + 1` always suffices. -/
def natReprAux : Nat → Nat → List Char → List Char
  | 0, _, acc => acc
  | fuel + 1, n, acc =>
    if n < 10 then digitChar n :: acc
    else natReprAux fuel (n / 10) (digitChar (n % 10) :: acc)

/-- Decimal rendering of a natural number, the model of Python's
`f"{counter}"` for the slug/code disambiguation suffix. -/
def natRepr (n : Nat) : String := ⟨natReprAux (n + 1) n []⟩

/-- Value of a digit string, used to prove `natRepr` injective. -/
def digitsVal (l : List Char) : Nat :=
  l.foldl (fun a c => 10 * a + (c.toNat - 48)) 0

/-! ## Association lists (Python `dict`, insertion-ordered) -/

/-- `d.get(k)` on an insertion-ordered association list. -/
def lookupA {κ α : Type} [DecidableEq κ] (k : κ) : List (κ × α) → Option α
  | [] => none
  | e :: rest => if e.fst = k then some e.snd else lookupA k rest

/-- `d[k] = v`: update in place when the key exists, else append. -/
def setA {κ α : Type} [DecidableEq κ] (k : κ) (v : α) : List (κ × α) → List (κ × α)
  | [] => [(k, v)]
  | e :: rest => if e.fst = k then (k, v) :: rest else e :: setA k v rest

/-- The key list of an association list, in insertion order. -/
def keysA {κ α : Type} (l : List (κ × α)) : List κ := l.map Prod.fst

/-! ## Structural facts about `slugify` -/

/-- A lower-case ASCII letter or digit: the only characters besides `-`
that `slugify` can emit. -/
def slugChar (c : Char) : Bool :=
  (97 ≤ c.toNat && c.toNat ≤ 122) || (48 ≤ c.toNat && c.toNat ≤ 57)

/-- No two adjacent hyphens. -/
def noAdjHyphen : List Char → Bool
  | [] => true
  | [_] => true
  | a :: b :: rest => !(a = '-' && b = '-') && noAdjHyphen (b :: rest)

/-- Shape of `slugify` outputs: lower-case alphanumerics and isolated
hyphens. -/
def slugNormalChars (l : List Char) : Bool :=
  l.all (fun c => slugChar c || c = '-') && noAdjHyphen l

/-! ## Data model (`etl/models.py`)

The SQL tables become Lean lists in insertion order.  Serial primary keys
become explicit `next…Id` counters.  `Numeric(12, 6)` values and Python
floats are modelled as `Rat`; the conversion `Decimal(str(x))` is a
deterministic injection and is modelled as the identity. -/

/-- A row of `items`: serial id, unique slug, canonical name, JSONB alias
list. -/
structure ItemRec where
  id : Nat
  slug : String
  canonical_name : String
  aliases : List String

deriving DecidableEq, Repr

/-- A row of `regions`: serial id, unique code, name, type. -/
structure RegionRec where
  id : Nat
  code : String
  name : String
  type : String

deriving DecidableEq, Repr

/-- A row of `raw_series`, the append-only audit store. -/
structure RawRow where
  source_file : String
  item_alias : String
  region_alias : String
  year : Int
  month : Int
  raw_value : Rat

deriving DecidableEq, Repr

/-- The unique key of `series`: `(item_id, region_id, date)` with the date
always the first of the month, so it is carried as `(year, month)`. -/
structure FactKey where
  item_id : Nat
  region_id : Nat
  year : Int
  month : Int

deriving DecidableEq, Repr

/-- A row of `etl_runs`.  Timestamps are ticks of a logical clock; the
random `uuid4` run id is supplied by the caller as a number. -/
structure RunRec where
  run_id : Nat
  started_at : Nat
  finished_at : Nat
  status : String
  checksum : String
  log : String

deriving DecidableEq, Repr

/-- A normalized observation as consumed by `ingest_with_engine`: the five
dictionary keys the ingestion engine reads. -/
structure Row where
  item_alias : String
  region_alias : String
  year : Int
  month : Int
  index_value : Rat

deriving DecidableEq, Repr

/-- The database state: the five tables plus id counters. -/
structure DB where
  items : List ItemRec
  regions : List RegionRec
  nextItemId : Nat
  nextRegionId : Nat
  raw : List RawRow
  series : List (FactKey × Rat)
  runs : List RunRec

deriving DecidableEq, Repr

/-! ## `DimensionManager` (`etl/fetch_mospi.py` 170–321)

The Python indices map tokens to shared mutable record dicts; here they
map tokens to ids, with `itemRecs`/`regionRecs` playing the role of the
id-keyed `self.items`/`self.regions` dicts. -/

structure DimState where
  itemRecs : List (Nat × ItemRec)
  item_alias_index : List (String × Nat)
  slug_index : List (String × Nat)
  regionRecs : List (Nat × RegionRec)
  region_alias_index : List (String × Nat)
  region_code_index : List (String × Nat)

deriving DecidableEq, Repr

def emptyDim : DimState := ⟨[], [], [], [], [], []⟩

def _register_item_alias (dm : DimState) (i : Nat) (al : String) : DimState :=
  { dm with item_alias_index := setA (normalizeAlias al) i dm.item_alias_index }

def _register_region_alias (dm : DimState) (i : Nat) (al : String) : DimState :=
  { dm with region_alias_index := setA (normalizeAlias al) i dm.region_alias_index }

/-- One step of `_load_items`: register the record, its slug, its
canonical name and all stored aliases. -/
def loadItemRec (dm : DimState) (r : ItemRec) : DimState :=
  let dm := { dm with itemRecs := setA r.id r dm.itemRecs,
                      slug_index := setA r.slug r.id dm.slug_index }
  let dm := _register_item_alias dm r.id r.slug
  let dm := _register_item_alias dm r.id r.canonical_name
  r.aliases.foldl (fun dm al => _register_item_alias dm r.id al) dm

/-- One step of `_load_regions`: register the record, its code and its
name. -/
def loadRegionRec (dm : DimState) (r : RegionRec) : DimState :=
  let dm := { dm with regionRecs := setA r.id r dm.regionRecs,
                      region_code_index := setA r.code r.id dm.region_code_index }
  let dm := _register_region_alias dm r.id r.code
  _register_region_alias dm r.id r.name

/-- `DimensionManager.__init__`: rebuild both alias indices from storage. -/
def loadDims (db : DB) : DimState :=
  db.regions.foldl loadRegionRec (db.items.foldl loadItemRec emptyDim)

/-- The candidate sequence of `_unique_item_slug`: the base first, then
`base-2`, `base-3`, …  (the Python counter starts at 1 and is incremented
before being appended). -/
def slugCand (slug : String) (j : Nat) : String :=
  if j = 0 then slug else slug ++ "-" ++ natRepr (j + 1)

/-- Search for the first free candidate index at or after `j`.  The Python
`while candidate in index` loop stops at the first free candidate; the
fuel `index.length + 1` provably suffices (`searchFree_spec` below), so
this function computes exactly the loop's result. -/
def searchFree (slug : String) (idx : List (String × Nat)) : Nat → Nat → Nat
  | j, 0 => j
  | j, fuel + 1 =>
    if (lookupA (slugCand slug j) idx).isNone then j
    else searchFree slug idx (j + 1) fuel

def _unique_item_slug (base : String) (idx : List (String × Nat)) : String :=
  let slug := if base = "" then "item" else base
  slugCand slug (searchFree slug idx 0 (idx.length + 1))

def _unique_region_code (base : String) (idx : List (String × Nat)) : String :=
  let code := if base = "" then "region" else base
  slugCand code (searchFree code idx 0 (idx.length + 1))

/-- `_append_item_alias_if_needed`: extend the stored alias list (and the
`items` table row) unless the token is already covered by an existing
alias. -/
def _append_item_alias_if_needed (dm : DimState) (db : DB) (i : Nat)
    (al : String) : DimState × DB :=
  match lookupA i dm.itemRecs with
  | none => (dm, db)
  | some record =>
    let token := normalizeAlias al
    if record.aliases.any (fun e => normalizeAlias e = token) then (dm, db)
    else
      let updated := record.aliases ++ [al]
      let newItems :=
        db.items.map (fun r => if r.id = i then { r with aliases := updated } else r)
      let db := { db with items := newItems }
      let dm := { dm with itemRecs := setA i { record with aliases := updated } dm.itemRecs }
      (_register_item_alias dm i al, db)

/-- `DimensionManager.ensure_item`. -/
def ensure_item (dm : DimState) (db : DB) (al : String) : Nat × DimState × DB :=
  let token := normalizeAlias al
  match lookupA token dm.item_alias_index with
  | some i =>
    let (dm, db) := _append_item_alias_if_needed dm db i al
    (i, dm, db)
  | none =>
    let slug_candidate := slugify al
    let token_from_slug := normalizeAlias slug_candidate
    match lookupA token_from_slug dm.item_alias_index with
    | some i =>
      let (dm, db) := _append_item_alias_if_needed dm db i al
      (i, dm, db)
    | none =>
      let slug := _unique_item_slug slug_candidate dm.slug_index
      let i := db.nextItemId
      let record : ItemRec := ⟨i, slug, al, [al]⟩
      let db := { db with items := db.items ++ [record], nextItemId := i + 1 }
      let dm := { dm with itemRecs := setA i record dm.itemRecs,
                          slug_index := setA slug i dm.slug_index }
      let dm := _register_item_alias dm i slug
      let dm := _register_item_alias dm i al
      (i, dm, db)

/-- `DimensionManager.ensure_region`: note that an existing match returns
immediately (no alias registration), and a new region is always created
with type `"unknown"`. -/
def ensure_region (dm : DimState) (db : DB) (al : String) : Nat × DimState × DB :=
  let token := normalizeAlias al
  match lookupA token dm.region_alias_index with
  | some i => (i, dm, db)
  | none =>
    let code_candidate := slugify al
    let code := _unique_region_code code_candidate dm.region_code_index
    let i := db.nextRegionId
    let record : RegionRec := ⟨i, code, al, "unknown"⟩
    let db := { db with regions := db.regions ++ [record], nextRegionId := i + 1 }
    let dm := { dm with regionRecs := setA i record dm.regionRecs,
                        region_code_index := setA code i dm.region_code_index }
    let dm := _register_region_alias dm i code
    let dm := _register_region_alias dm i al
    (i, dm, db)

/-! ## `ingest_with_engine` (`etl/fetch_mospi.py` 324–429) -/

inductive PyErr
  | valueErr (msg : String)
  | typeErr
  | attributeErr
  | transientErr

deriving DecidableEq, Repr

def MAX_LOG_CHARS : Nat := 64 * 1024

def MAX_RETRIES : Nat := 3

def RETRY_BASE_DELAY_SECONDS : Nat := 2

/-- `datetime(year, month, 1)` succeeds exactly on these arguments. -/
def dateOk (y m : Int) : Bool :=
  1 ≤ y && y ≤ 9999 && 1 ≤ m && m ≤ 12

/-- The raw-audit payload entry built for one row (`Decimal(str(v))` is
modelled as the identity on the exact rational value). -/
def mkRawRow (file : String) (r : Row) : RawRow :=
  ⟨file, r.item_alias, r.region_alias, r.year, r.month, r.index_value⟩

/-- Postgres `INSERT … ON CONFLICT (item_id, region_id, date) DO UPDATE`:
update in place when the key exists, else append a row. -/
def upsertFact (db : DB) (k : FactKey) (v : Rat) : DB :=
  { db with series := setA k v db.series }

/-- The per-row half of the transaction body: resolve both dimensions,
build the first-of-month date (raising `ValueError` like `datetime` on an
invalid month/year), and upsert the fact. -/
def ingestRowsLoop : List Row → DimState → DB → Except PyErr (DimState × DB)
  | [], dm, db => .ok (dm, db)
  | r :: rest, dm, db =>
    let resItem := ensure_item dm db r.item_alias
    let item_id := resItem.1
    let resRegion := ensure_region resItem.2.1 resItem.2.2 r.region_alias
    let region_id := resRegion.1
    if dateOk r.year r.month then
      ingestRowsLoop rest resRegion.2.1
        (upsertFact resRegion.2.2 ⟨item_id, region_id, r.year, r.month⟩ r.index_value)
    else .error (.valueErr "invalid date")

/-- One transaction attempt: bulk-insert the raw payload, rebuild the
dimension indices from storage, then resolve and upsert every row.  An
error leaves the database unchanged (rollback of `engine.begin()`). -/
def attemptTx (db : DB) (file : String) (rows : List Row) : Except PyErr DB :=
  let dbr := { db with raw := db.raw ++ rows.map (mkRawRow file) }
  let dm := loadDims dbr
  (ingestRowsLoop rows dm dbr).map (fun p => p.snd)

/-- Behaviour of the outside world during one `ingest_with_engine` call:
which transaction attempts raise a transient storage error, and whether
the run-record insert itself fails. -/
structure Sched where
  txFail : Nat → Bool
  runInsertFail : Bool

/-- Engine-side state threaded through a call: the database, a logical
clock for timestamps, the `time.sleep` trace, and counters for run-record
insert attempts and `logger.error` calls from `record_run`. -/
structure Eng where
  db : DB
  clock : Nat
  sleeps : List Nat
  runInsertAttempts : Nat
  loggerErrors : Nat

deriving DecidableEq, Repr

/-- `append_log`: stamp the entry with the clock and extend the
transcript. -/
def appendLog (st : Eng) (logs : List String) (level msg : String) :
    Eng × List String :=
  let c := st.clock
  ({ st with clock := c + 1 }, logs ++ [s!"{c} [{level}] {msg}"])

/-- Python slicing `s[:n]`. -/
def pyTake (s : String) (n : Nat) : String := ⟨s.data.take n⟩

/-- `record_run`: write exactly one run record with the final status, the
checksum and the transcript truncated to `MAX_LOG_CHARS`; a failure of
this insert is logged (`logger.error`) and not retried. -/
def record_run (sched : Sched) (runId started_at : Nat) (checksum : String)
    (logs : List String) (finalStatus : String) (st : Eng) : Eng :=
  let finished_at := st.clock
  let st := { st with clock := st.clock + 1 }
  let truncated := pyTake (String.intercalate "\n" logs) MAX_LOG_CHARS
  let st := { st with runInsertAttempts := st.runInsertAttempts + 1 }
  if sched.runInsertFail then
    { st with loggerErrors := st.loggerErrors + 1 }
  else
    { st with db := { st.db with runs := st.db.runs ++
        [⟨runId, started_at, finished_at, finalStatus, checksum, truncated⟩] } }

/-- The retry loop of `ingest_with_engine` (`for attempt in range(1,
MAX_RETRIES + 1)`).  `fuel` counts the remaining loop iterations and
starts at `MAX_RETRIES`; the zero case is unreachable because the final
attempt either succeeds or re-raises. -/
def ingestLoop (sched : Sched) (file : String) (rows : List Row) :
    Nat → Nat → Eng → List String → (Except PyErr DB) × Eng × List String
  | _, 0, st, logs => (.error .transientErr, st, logs)
  | attempt, fuel + 1, st, logs =>
    let (st, logs) := appendLog st logs "INFO"
      s!"Inserting raw series rows (attempt {attempt})"
    if sched.txFail attempt then
      if attempt = MAX_RETRIES then
        let (st, logs) := appendLog st logs "ERROR"
          s!"Database operation failed after {attempt} attempts: transient"
        (.error .transientErr, st, logs)
      else
        let wait_time := min (RETRY_BASE_DELAY_SECONDS * attempt) 10
        let m := MAX_RETRIES
        let (st, logs) := appendLog st logs "WARNING"
          s!"Transient database error (attempt {attempt}/{m}): transient. Retrying in {wait_time} seconds"
        let st := { st with sleeps := st.sleeps ++ [wait_time] }
        ingestLoop sched file rows (attempt + 1) fuel st logs
    else
      match attemptTx st.db file rows with
      | .ok db =>
        let st := { st with db := db }
        let n := rows.length
        let (st, logs) := appendLog st logs "INFO" s!"Upserted {n} series rows"
        (.ok db, st, logs)
      | .error e => (.error e, st, logs)

structure IngestResult where
  run_id : Nat
  status : String
  rows_processed : Nat

deriving DecidableEq, Repr

/-- `ingest_with_engine`: run the transaction with retries, then in all
outcomes (`finally`) write exactly one run record; errors re-raise to the
caller.  Returns the outcome, the final engine state, and the transcript
(ghost output used only by specifications). -/
def ingest_with_engine (sched : Sched) (runId : Nat) (st : Eng) (file : String)
    (rows : List Row) (checksum : String) :
    Except PyErr IngestResult × Eng × List String :=
  let started_at := st.clock
  let st := { st with clock := st.clock + 1 }
  let n := rows.length
  let (st, logs) := appendLog st [] "INFO"
    s!"Starting database ingestion for {n} rows"
  let res := ingestLoop sched file rows 1 MAX_RETRIES st logs
  match res with
  | (.ok _, st, logs) =>
    let (st, logs) := appendLog st logs "INFO" "Database ingestion complete"
    let st := record_run sched runId started_at checksum logs "success" st
    (.ok ⟨runId, "success", rows.length⟩, st, logs)
  | (.error e, st, logs) =>
    let st := record_run sched runId started_at checksum logs "failed" st
    (.error e, st, logs)

/-! ## `month_to_number` (`etl/fetch_mospi.py` 36–60) -/

/-- A pandas/JSON cell value: string, integer, float, or missing (NaN /
None). -/
inductive Cell
  | str (s : String)
  | int (n : Int)
  | real (q : Rat)
  | blank

deriving DecidableEq, Repr

/-- The `month_lookup` dict, including the dead `"sept"` entry (it can
never match, since the lookup key is truncated to three characters). -/
def month_lookup : List (String × Int) :=
  [("jan", 1), ("feb", 2), ("mar", 3), ("apr", 4), ("may", 5), ("jun", 6),
   ("jul", 7), ("aug", 8), ("sep", 9), ("sept", 9), ("oct", 10), ("nov", 11),
   ("dec", 12)]

/-- `month_to_number`: an `int` is returned unchanged (no 1–12 check); a
string is stripped, lower-cased and truncated to three characters before
the table lookup; a float or `None` has no `.strip` attribute. -/
def month_to_number : Cell → Except PyErr Int
  | .int n => .ok n
  | .str value =>
    let value_clean := pyStripLower value
    let key := pyTake value_clean 3
    match lookupA key month_lookup with
    | some m => .ok m
    | none => .error (.valueErr "Unsupported month value")
  | .real _ => .error .attributeErr
  | .blank => .error .attributeErr

/-! ## Region-type inference (`etl/phase3_pipeline.py` 128–136) -/

/-- Python's `needle in hay` substring test. -/
def isInfixChars (needle hay : List Char) : Bool :=
  hay.tails.any (fun t => needle.isPrefixOf t)

def pyIn (needle hay : String) : Bool := isInfixChars needle.data hay.data

def pyLowerStr (s : String) : String := ⟨s.data.map pyLowerChar⟩

/-- `_infer_region_type`: substring heuristics on the lower-cased alias. -/
def _infer_region_type (al : String) : String :=
  let token := pyLowerStr al
  if pyIn "urban" token then "urban"
  else if pyIn "rural" token then "rural"
  else if pyIn "all india" token || pyIn "india" token then "nation"
  else "state"

/-! ## Phase-3 orchestrator (`etl/phase3_pipeline.py` 495–541)

Only the storage-backed path (an engine is configured and `dry_run` is
false) is modelled; file acquisition and checksum computation live outside
the model, so the checksum is an input function of the batch. -/

/-- `str(exc)` for the modelled exceptions. -/
def errStr : PyErr → String
  | .valueErr m => m
  | .typeErr => "TypeError"
  | .attributeErr => "AttributeError"
  | .transientErr => "transient"

structure SourceBatch where
  name : String
  file_path : String
  rows : List Row

deriving DecidableEq, Repr

/-- One entry of the orchestrator's `summaries` list. -/
structure BatchSummary where
  source : String
  file : String
  rows : Nat
  checksum : String
  status : String
  error : Option String

deriving DecidableEq, Repr

structure PipelineSummary where
  batches : List BatchSummary
  totalBatches : Nat
  totalRows : Nat

deriving DecidableEq, Repr

/-- The orchestrator's per-batch loop.  `scheds`/`runIds` supply the
environment of the `k`-th `ingest_with_engine` call.  Returns the local
`summaries` list, the first uncaught exception (if any), the final engine
state, and the trace of batch names for which ingestion was invoked. -/
def phase3Loop (scheds : Nat → Sched) (runIds : Nat → Nat)
    (checksum : SourceBatch → String) :
    List SourceBatch → Nat → Eng →
      List BatchSummary × Option PyErr × Eng × List String
  | [], _, st => ([], none, st, [])
  | b :: rest, k, st =>
    match ingest_with_engine (scheds k) (runIds k) st b.file_path b.rows
        (checksum b) with
    | (.ok _, st', _) =>
      let r := phase3Loop scheds runIds checksum rest (k + 1) st'
      (⟨b.name, b.file_path, b.rows.length, checksum b, "ingested", none⟩ :: r.1,
        r.2.1, r.2.2.1, b.name :: r.2.2.2)
    | (.error e, st', _) =>
      ([⟨b.name, b.file_path, b.rows.length, checksum b, "failed",
          some (errStr e)⟩], some e, st', [b.name])

/-- `run_phase3_pipeline` on the storage path: drive every batch through
`ingest_with_engine`; a batch's exception is re-raised after appending the
failed summary, so the summary list never reaches the caller on failure. -/
def run_phase3_pipeline (scheds : Nat → Sched) (runIds : Nat → Nat)
    (checksum : SourceBatch → String) (batches : List SourceBatch) (st : Eng) :
    (Except PyErr PipelineSummary) × Eng × List String :=
  let r := phase3Loop scheds runIds checksum batches 0 st
  match r.2.1 with
  | some e => (.error e, r.2.2.1, r.2.2.2)
  | none =>
    (.ok ⟨r.1, batches.length, (r.1.map BatchSummary.rows).sum⟩,
      r.2.2.1, r.2.2.2)

/-! ## Cell coercions shared by the adapters -/

def isDigitChar (c : Char) : Bool := 48 ≤ c.toNat && c.toNat ≤ 57

def pyStrip (s : String) : String := ⟨stripChars s.data⟩

/-- `int(str)`: optional surrounding whitespace, optional sign, digits.
(Python also accepts digit-group underscores; no input here uses them.) -/
def parseIntStr? (s : String) : Option Int :=
  let l := stripChars s.data
  let signed : Int × List Char :=
    match l with
    | '-' :: rest => (-1, rest)
    | '+' :: rest => (1, rest)
    | _ => (1, l)
  if signed.2.isEmpty then none
  else if signed.2.all isDigitChar then some (signed.1 * (digitsVal signed.2 : Int))
  else none

/-- `int(float)` truncates toward zero. -/
def ratTrunc (q : Rat) : Int := if 0 ≤ q then q.floor else q.ceil

/-- `int(cell)`. `int(None)` is a `TypeError`. -/
def cellInt : Cell → Except PyErr Int
  | .int n => .ok n
  | .real q => .ok (ratTrunc q)
  | .str s =>
    match parseIntStr? s with
    | some n => .ok n
    | none => .error (.valueErr "invalid literal for int")
  | .blank => .error .typeErr

/-- `float(str)` on stripped sign/digits/point literals.  (Exponents,
`inf` and `nan` are not modelled; no input here uses them.) -/
def parseFloatStr? (s : String) : Option Rat :=
  let l := stripChars s.data
  let signed : Rat × List Char :=
    match l with
    | '-' :: rest => (-1, rest)
    | '+' :: rest => (1, rest)
    | _ => (1, l)
  let intPart := signed.2.takeWhile (fun c => c ≠ '.')
  match signed.2.dropWhile (fun c => c ≠ '.') with
  | [] =>
    if !intPart.isEmpty && intPart.all isDigitChar then
      some (signed.1 * (digitsVal intPart : Rat))
    else none
  | _ :: frac =>
    if intPart.all isDigitChar && frac.all isDigitChar &&
        (!intPart.isEmpty || !frac.isEmpty) && frac.all (fun c => c ≠ '.') then
      some (signed.1 * ((digitsVal intPart : Rat) +
        (digitsVal frac : Rat) / (10 : Rat) ^ frac.length))
    else none

/-- `float(cell)`. `float(None)` is a `TypeError`. -/
def cellFloat : Cell → Except PyErr Rat
  | .int n => .ok (n : Rat)
  | .real q => .ok q
  | .str s =>
    match parseFloatStr? s with
    | some q => .ok q
    | none => .error (.valueErr "could not convert string to float")
  | .blank => .error .typeErr

def intRepr (n : Int) : String :=
  if n < 0 then "-" ++ natRepr n.natAbs else natRepr n.natAbs

/-- Placeholder rendering for `str(float)`; no claim evaluates `str` on a
float cell. -/
def ratRepr (q : Rat) : String :=
  if q.den = 1 then intRepr q.num
  else intRepr q.num ++ "/" ++ natRepr q.den

/-- `str(cell)`. -/
def pyStr : Cell → String
  | .str s => s
  | .int n => intRepr n
  | .real q => ratRepr q
  | .blank => "None"

/-- Python truthiness of a cell (`None`/NaN modelled as falsy). -/
def cellTruthy : Cell → Bool
  | .str s => s ≠ ""
  | .int n => n ≠ 0
  | .real q => q ≠ 0
  | .blank => false

/-- `phase3_pipeline._normalize_numeric`. -/
def _normalize_numeric : Cell → Except PyErr Rat
  | .blank => .error (.valueErr "missing numeric value")
  | .int n => .ok (n : Rat)
  | .real q => .ok q
  | .str s =>
    let string_value := pyStrip s
    if string_value = "" then .error (.valueErr "empty numeric value")
    else
      match parseFloatStr? string_value with
      | some q => .ok q
      | none => .error (.valueErr "could not convert string to float")

/-! ## Dataframes and the annex parser (`etl/fetch_mospi.py` 90–143)

A dataframe is its column list plus rows of column-keyed cells; sheet
selection and file reading live outside the model. -/

structure Df where
  cols : List String
  rows : List (List (String × Cell))

deriving DecidableEq, Repr

def getCell (row : List (String × Cell)) (col : String) : Cell :=
  (lookupA col row).getD .blank

def isBlank : Cell → Bool
  | .blank => true
  | _ => false

/-- `col.strip().lower().replace(" ", "_")` applied to string headers. -/
def headerNorm (s : String) : String :=
  ⟨(pyStripLower s).data.map (fun d => if d = ' ' then '_' else d)⟩

def renameCols (f : String → String) (df : Df) : Df :=
  ⟨df.cols.map f, df.rows.map (fun row => row.map (fun e => (f e.fst, e.snd)))⟩

def renameWith (m : List (String × String)) (df : Df) : Df :=
  renameCols (fun c => (lookupA c m).getD c) df

/-- The `rename_map` of `parse_annex`: every candidate present in the
columns is renamed to its canonical field (no early break). -/
def annexRenameMap (cols : List String) : List (String × String) :=
  let maps : List (List (String × String)) :=
    [[("item", "item"), ("item_name", "item"), ("description", "item")],
     [("state", "region"), ("region", "region"), ("sector", "region")],
     [("year", "year")],
     [("month", "month")],
     [("index", "index_value"), ("cpi", "index_value"), ("value", "index_value")]]
  maps.foldl (fun acc mp =>
    mp.foldl (fun acc e => if e.fst ∈ cols then setA e.fst e.snd acc else acc) acc) []

def annexRequired : List String := ["item", "region", "year", "month", "index_value"]

/-- One row of the `parse_annex` loop body (the `try` block). -/
def annexRowNorm (row : List (String × Cell)) : Except PyErr Row := do
  let year ← cellInt (getCell row "year")
  let month ← month_to_number (getCell row "month")
  let value ← cellFloat (getCell row "index_value")
  .ok ⟨pyStrip (pyStr (getCell row "item")), pyStrip (pyStr (getCell row "region")),
    year, month, value⟩

/-- The `parse_annex` row loop: a `TypeError`/`ValueError` in any row is
re-raised as `ValueError("Invalid record encountered…")` for the whole
batch. -/
def annexLoop : List (List (String × Cell)) → Except PyErr (List Row)
  | [] => .ok []
  | row :: rest =>
    match annexRowNorm row with
    | .ok r => (annexLoop rest).map (fun rs => r :: rs)
    | .error (.valueErr _) => .error (.valueErr "Invalid record encountered")
    | .error .typeErr => .error (.valueErr "Invalid record encountered")
    | .error e => .error e

/-- `parse_annex`: normalize headers, apply the candidate rename maps,
fail on missing required columns, drop rows with missing required values
(`dropna`), then coerce row by row. -/
def parse_annex (df : Df) : Except PyErr (List Row) :=
  let df := renameCols headerNorm df
  let df := renameWith (annexRenameMap df.cols) df
  if (annexRequired.filter (fun c => !(df.cols.contains c))) ≠ [] then
    .error (.valueErr "Annex missing required columns")
  else
    annexLoop (df.rows.filter
      (fun row => annexRequired.all (fun c => !(isBlank (getCell row c)))))

/-! ## Item overrides and normalized rows (`etl/phase3_pipeline.py` 33–183) -/

def ACCEPTED_YEARS : Int × Int := (1958, 2025)

def _year_in_scope (year : Int) : Bool :=
  ACCEPTED_YEARS.1 ≤ year && year ≤ ACCEPTED_YEARS.2

/-- `re.sub(r"&", " and ", ·)`. -/
def expandAmp (s : String) : String :=
  ⟨s.data.flatMap (fun c => if c = '&' then " and ".data else [c])⟩

/-- `str.split()` (whitespace runs, empty words dropped). -/
def splitWsAux : List Char → List Char → List (List Char)
  | [], acc => if acc.isEmpty then [] else [acc.reverse]
  | c :: rest, acc =>
    if pySpace c then
      if acc.isEmpty then splitWsAux rest []
      else acc.reverse :: splitWsAux rest []
    else splitWsAux rest (c :: acc)

def joinWords (ws : List (List Char)) : String :=
  ⟨(ws.intersperse [' ']).flatten⟩

/-- `_normalize_item_key`: lower-case, `&` → `" and "`, truncate at `(`
and `/`, non-`[a-z0-9\s]` to spaces, collapse word gaps. -/
def _normalize_item_key (al : String) : String :=
  let v := pyLowerStr al
  let v := expandAmp v
  let v : String := ⟨v.data.takeWhile (fun c => c ≠ '(')⟩
  let v : String := ⟨v.data.takeWhile (fun c => c ≠ '/')⟩
  let v : String := ⟨v.data.map (fun c =>
    if (97 ≤ c.toNat && c.toNat ≤ 122) || isDigitChar c || pySpace c then c else ' ')⟩
  joinWords (splitWsAux v.data [])

def CPI_ITEM_OVERRIDES :
    List (String × (String × String × Option (List String))) :=
  [("general", ("cpi-all-items", "CPI All Items",
      some ["general index", "headline cpi"])),
   ("food and beverages", ("cpi-food-and-beverages", "CPI Food & Beverages",
      some ["food beverages", "food and bev"])),
   ("pan tobacco and intoxicants",
      ("cpi-pan-tobacco-intoxicants", "CPI Pan, Tobacco & Intoxicants", none)),
   ("clothing and footwear",
      ("cpi-clothing-footwear", "CPI Clothing & Footwear", none)),
   ("housing", ("cpi-housing", "CPI Housing", none)),
   ("fuel and light", ("cpi-fuel-and-light", "CPI Fuel & Light",
      some ["fuel & light", "fuel light"])),
   ("miscellaneous", ("cpi-miscellaneous", "CPI Miscellaneous", none))]

def WPI_ITEM_OVERRIDES :
    List (String × (String × String × Option (List String))) :=
  [("all commodities", ("wpi-all-commodities", "WPI All Commodities", none)),
   ("primary articles", ("wpi-primary-articles", "WPI Primary Articles", none)),
   ("fuel and power", ("wpi-fuel-and-power", "WPI Fuel & Power", none)),
   ("manufactured products", ("wpi-manufactured-products",
      "WPI Manufactured Products", some ["manufactured goods"]))]

def _resolve_item_override (al source : String) :
    Option String × Option String × Option (List String) :=
  let key := _normalize_item_key al
  let override :=
    if source = "mospi" || source = "data_gov" || source = "imf" then
      lookupA key CPI_ITEM_OVERRIDES
    else if source = "dpiit" then lookupA key WPI_ITEM_OVERRIDES
    else none
  match override with
  | none => (none, none, none)
  | some ov => (some ov.1, some ov.2.1, ov.2.2)

/-- A fully normalized observation produced by the phase-3 adapters. -/
structure NormRow where
  item_alias : String
  item_slug : String
  item_canonical_name : String
  item_aliases : Option (List String)
  region_alias : String
  region_code : String
  region_type : String
  region_aliases : Option (List String)
  year : Int
  month : Int
  index_value : Rat
  source : String

deriving DecidableEq, Repr

/-- The five fields of a normalized observation that
`ingest_with_engine` reads. -/
def NormRow.toRow (r : NormRow) : Row :=
  ⟨r.item_alias, r.region_alias, r.year, r.month, r.index_value⟩

/-- Python `x or y` for optional strings (`None` and `""` are falsy). -/
def orStr (o : Option String) (d : String) : String :=
  match o with
  | some c => if c = "" then d else c
  | none => d

/-- `list(xs) if xs else None`: an empty list collapses to `None`. -/
def optList (o : Option (List String)) : Option (List String) :=
  match o with
  | some [] => none
  | x => x

/-- `_normalized_row`: raises `ValueError` outside the year window,
otherwise fills region code/type and canonical name defaults. -/
def _normalized_row (item_alias region_alias : String) (year month : Int)
    (value : Rat) (source : String) (item_slug canonical_name : Option String)
    (region_code region_type : Option String)
    (extra_item_aliases extra_region_aliases : Option (List String)) :
    Except PyErr NormRow :=
  if !_year_in_scope year then .error (.valueErr "year out of accepted range")
  else
    .ok ⟨item_alias, orStr item_slug (slugify item_alias),
      orStr canonical_name item_alias, optList extra_item_aliases,
      region_alias, orStr region_code (slugify region_alias),
      orStr region_type (_infer_region_type region_alias),
      optList extra_region_aliases, year, month, value, source⟩

/-- The shared shape of the four phase-3 row loops: skip on `continue`
(`none`), skip on `ValueError`, propagate anything else. -/
def phase3Filter {α : Type} (f : α → Except PyErr (Option NormRow)) :
    List α → Except PyErr (List NormRow)
  | [] => .ok []
  | x :: rest =>
    match f x with
    | .ok (some r) => (phase3Filter f rest).map (fun rs => r :: rs)
    | .ok none => phase3Filter f rest
    | .error (.valueErr _) => phase3Filter f rest
    | .error e => .error e

/-- A Python `a or b or … or d` chain over cells: the first truthy cell,
else the final default. -/
def orCells : List Cell → Cell → Cell
  | [], d => d
  | c :: rest, d => if cellTruthy c then c else orCells rest d

/-! ## The four phase-3 adapters -/

/-- One entry of the `parse_mospi_annex` loop over `parse_annex` output. -/
def mospiEntryNorm (entry : Row) : Except PyErr (Option NormRow) :=
  let year := entry.year
  if !_year_in_scope year then .ok none
  else
    match _normalize_numeric (.real entry.index_value) with
    | .error e => .error e
    | .ok value =>
      let region_alias := pyStrip entry.region_alias
      let item_alias := pyStrip entry.item_alias
      let ov := _resolve_item_override item_alias "mospi"
      (_normalized_row item_alias region_alias year entry.month value "mospi"
        ov.1 ov.2.1 none none ov.2.2 none).map some

/-- `parse_mospi_annex`: `parse_annex` (whose row-coercion failures abort
the whole batch) followed by the scope/override filter. -/
def parse_mospi_annex (df : Df) : Except PyErr (List NormRow) :=
  match parse_annex df with
  | .error e => .error e
  | .ok rows => phase3Filter mospiEntryNorm rows

/-- The `column_groups` rename of `parse_datagov_resource` (first present
candidate per canonical name wins). -/
def datagovRenameMap (cols : List String) : List (String × String) :=
  let groups : List (String × List String) :=
    [("item", ["item", "commodity", "series", "series_name"]),
     ("state", ["state", "region", "location"]),
     ("sector", ["sector", "population", "segment"]),
     ("year", ["year", "fiscal_year"]),
     ("month", ["month", "period", "month_name"]),
     ("value", ["value", "index", "cpi", "wpi"])]
  groups.foldl (fun acc g =>
    match g.snd.find? (fun c => cols.contains c) with
    | some c => setA c g.fst acc
    | none => acc) []

def pyUpperChar (c : Char) : Char :=
  if 97 ≤ c.toNat && c.toNat ≤ 122 then Char.ofNat (c.toNat - 32) else c

def isAsciiAlpha (c : Char) : Bool :=
  (97 ≤ c.toNat && c.toNat ≤ 122) || (65 ≤ c.toNat && c.toNat ≤ 90)

def titleAux : Bool → List Char → List Char
  | _, [] => []
  | prevAlpha, c :: rest =>
    if isAsciiAlpha c then
      (if prevAlpha then pyLowerChar c else pyUpperChar c) :: titleAux true rest
    else c :: titleAux false rest

/-- `str.title()` (ASCII model). -/
def pyTitle (s : String) : String := ⟨titleAux false s.data⟩

/-- One row of the `parse_datagov_resource` loop. -/
def datagovRowNorm (row : List (String × Cell)) : Except PyErr (Option NormRow) :=
  match cellInt (getCell row "year") with
  | .error e => .error e
  | .ok year =>
    if !_year_in_scope year then .ok none
    else
      match month_to_number (getCell row "month") with
      | .error e => .error e
      | .ok month =>
        match _normalize_numeric (getCell row "value") with
        | .error e => .error e
        | .ok value =>
          let item_alias := pyStrip (pyStr (getCell row "item"))
          let state := pyStrip (pyStr (getCell row "state"))
          let sector_cell := getCell row "sector"
          let sector_raw := pyStrip (pyStr
            (if cellTruthy sector_cell then sector_cell else .str ""))
          let sector := if sector_raw ≠ "" then pyLowerStr sector_raw else "combined"
          let region_alias :=
            if sector ≠ "combined" then state ++ " (" ++ pyTitle sector ++ ")"
            else state
          let region_type :=
            if sector = "rural" || sector = "urban" then sector else "state"
          let region_code := slugify region_alias
          let ov := _resolve_item_override item_alias "data_gov"
          (_normalized_row item_alias region_alias year month value "data_gov"
            ov.1 ov.2.1 (some region_code) (some region_type) ov.2.2
            (some [state])).map some

/-- `parse_datagov_resource`. -/
def parse_datagov_resource (df : Df) : Except PyErr (List NormRow) :=
  let df := renameWith (datagovRenameMap df.cols) df
  if (["item", "state", "year", "month", "value"].filter
      (fun c => !(df.cols.contains c))) ≠ [] then
    .error (.valueErr "Data.gov.in resource missing required columns")
  else phase3Filter datagovRowNorm df.rows

/-- ISO date recognition for the IMF adapter, modelled for `YYYY-MM-DD`
strings; every other shape takes the `ValueError → continue` path. -/
def isoParse? (s : String) : Option (Int × Int) :=
  match s.data with
  | [y1, y2, y3, y4, '-', m1, m2, '-', d1, d2] =>
    if [y1, y2, y3, y4, m1, m2, d1, d2].all isDigitChar then
      let m := (digitsVal [m1, m2] : Int)
      let d := digitsVal [d1, d2]
      if 1 ≤ m && m ≤ 12 && 1 ≤ d && d ≤ 31 then
        some ((digitsVal [y1, y2, y3, y4] : Int), m)
      else none
    else none
  | _ => none

/-- One entry of the `parse_imf_series` loop. -/
def imfEntryNorm (entry : List (String × Cell)) : Except PyErr (Option NormRow) :=
  let item := pyStrip (pyStr (orCells
    [getCell entry "item", getCell entry "indicator", getCell entry "series"]
    (.str "IMF CPI")))
  let region := pyStrip (pyStr (orCells
    [getCell entry "region", getCell entry "country"] (.str "All India")))
  let date_value :=
    if cellTruthy (getCell entry "date") then getCell entry "date"
    else getCell entry "period"
  let year_value := getCell entry "year"
  let month_value := getCell entry "month"
  let useDate := cellTruthy date_value &&
    !(cellTruthy year_value && cellTruthy month_value)
  let ym : Option (Cell × Cell) :=
    if useDate then
      match isoParse? (pyStr date_value) with
      | some p => some (.int p.1, .int p.2)
      | none => none
    else some (year_value, month_value)
  match ym with
  | none => .ok none
  | some p =>
    if isBlank p.1 || isBlank p.2 then .ok none
    else
      match cellInt p.1 with
      | .error e => .error e
      | .ok year =>
        if !_year_in_scope year then .ok none
        else
          match month_to_number p.2 with
          | .error e => .error e
          | .ok month =>
            match _normalize_numeric (orCells [getCell entry "value"]
                (getCell entry "obs_value")) with
            | .error e => .error e
            | .ok value =>
              let region_type := pyLowerStr (pyStr
                (if cellTruthy (getCell entry "region_type") then
                  getCell entry "region_type" else .str "nation"))
              let ov := _resolve_item_override item "imf"
              (_normalized_row item region year month value "imf" ov.1 ov.2.1
                none (some region_type) ov.2.2 none).map some

/-- `parse_imf_series` on the extracted record list (the `.series`/`.data`
unwrapping of the JSON document happens before the loop and is outside
the model). -/
def parse_imf_series (series : List (List (String × Cell))) :
    Except PyErr (List NormRow) :=
  phase3Filter imfEntryNorm series

/-- The `column_groups` rename of `parse_dpiit_resource`. -/
def dpiitRenameMap (cols : List String) : List (String × String) :=
  let groups : List (String × List String) :=
    [("item", ["item", "commodity", "product", "group", "sub_group", "series",
       "commodity_name"]),
     ("year", ["year", "financial_year", "yr"]),
     ("month", ["month", "month_name", "period"]),
     ("value", ["index", "wpi", "value", "level", "weighted_index"]),
     ("region", ["region", "state", "market", "centre", "location"]),
     ("sector", ["sector", "population", "segment"])]
  groups.foldl (fun acc g =>
    match g.snd.find? (fun c => cols.contains c) with
    | some c => setA c g.fst acc
    | none => acc) []

/-- One row of the `parse_dpiit_resource` loop. -/
def dpiitRowNorm (row : List (String × Cell)) : Except PyErr (Option NormRow) :=
  match cellInt (getCell row "year") with
  | .error e => .error e
  | .ok year =>
    if !_year_in_scope year then .ok none
    else
      match month_to_number (getCell row "month") with
      | .error e => .error e
      | .ok month =>
        match _normalize_numeric (getCell row "value") with
        | .error e => .error e
        | .ok value =>
          let item_alias0 := pyStrip (pyStr (getCell row "item"))
          let item_alias :=
            if item_alias0 = "" then "WPI All Commodities" else item_alias0
          let ov := _resolve_item_override item_alias "dpiit"
          let slug_value := orStr ov.1 (slugify ("wpi-" ++ item_alias))
          let canonical_label := orStr ov.2.1 item_alias
          let region_raw0 := pyStrip (pyStr
            (if cellTruthy (getCell row "region") then getCell row "region"
             else .str "All India"))
          let sector_raw := pyStrip (pyStr
            (if cellTruthy (getCell row "sector") then getCell row "sector"
             else .str ""))
          let region_raw := if region_raw0 = "" then "All India" else region_raw0
          let region_alias :=
            if sector_raw ≠ "" && !(pyIn (pyLowerStr sector_raw) (pyLowerStr region_raw))
            then region_raw ++ " (" ++ sector_raw ++ ")"
            else region_raw
          let lowered := pyLowerStr region_alias
          let region_type :=
            if pyIn "rural" lowered then "rural"
            else if pyIn "urban" lowered then "urban"
            else if !(pyIn "india" lowered) then "state"
            else "nation"
          let extra_region : Option (List String) :=
            if region_raw ≠ region_alias then some [region_raw] else none
          (_normalized_row item_alias region_alias year month value "dpiit"
            (some slug_value) (some canonical_label) none (some region_type)
            ov.2.2 extra_region).map some

/-- `parse_dpiit_resource` on the extracted dataframe (archive-entry
selection happens before the loop and is outside the model). -/
def parse_dpiit_resource (df : Df) : Except PyErr (List NormRow) :=
  let df := renameCols headerNorm df
  let df := renameWith (dpiitRenameMap df.cols) df
  if (["item", "year", "month", "value"].filter
      (fun c => !(df.cols.contains c))) ≠ [] then
    .error (.valueErr "DPIIT WPI resource missing required columns")
  else phase3Filter dpiitRowNorm df.rows

/-! ## The spec's normalization rule (§4.3), modelled from its words

The spec describes alias normalization as: case-fold, trim, strip
diacritics, collapse non-alphanumeric runs to single hyphens.  This
definition follows those words (not the source) and exists solely to be
compared against the code's `normalizeAlias`. -/

/-- Collapse each maximal run of non-alphanumeric characters to a single
hyphen; the flag records whether the current position is inside such a
run (initially true, so a leading run is dropped like trimming). -/
def specRuns : Bool → List Char → List Char
  | _, [] => []
  | hyp, c :: t =>
    if asciiAlnum c then c :: specRuns false t
    else if hyp then specRuns hyp t
    else '-' :: specRuns true t

/-- The spec's normalization rule: case-fold, trim, strip diacritics,
collapse non-alphanumeric runs to single hyphens. -/
def specNormalize (s : String) : String :=
  ⟨specRuns true (stripChars ((s.data.flatMap asciiFold).map pyLowerChar))⟩

/-- Resolve a list of labels through `ensure_item` in order, threading the
resolver state and the database. -/
def ensureChain : List String → DimState → DB → DimState × DB
  | [], dm, db => (dm, db)
  | al :: rest, dm, db =>
    ensureChain rest (ensure_item dm db al).2.1 (ensure_item dm db al).2.2

/-- Every label in the list takes the creation branch of `ensure_item` at
its turn: neither its token nor its slug-derived token is bound when it is
resolved. -/
def creationPath : List String → DimState → DB → Bool
  | [], _, _ => true
  | al :: rest, dm, db =>
    (lookupA (normalizeAlias al) dm.item_alias_index).isNone
    && (lookupA (normalizeAlias (slugify al)) dm.item_alias_index).isNone
    && creationPath rest (ensure_item dm db al).2.1 (ensure_item dm db al).2.2

/-- A schedule on which neither the transaction nor the run-record insert
ever fails. -/
def sched0 : Sched := ⟨fun _ => false, false⟩

/-- A well-formed store for the C1 counterexample: item 1 owns the slug
"item", and item 2 lists "Item-2" as an alias (so the token "item-2" is
bound to item 2). -/
def c1Db : DB :=
  ⟨[⟨1, "item", "Item", []⟩, ⟨2, "y", "Y", ["Item-2"]⟩], [], 3, 1, [], [], []⟩

/-- The C1 counterexample batch: a row for alias "Item-2" followed by a
fallback-alias row whose created item steals the slug "item-2". -/
def c1Rows : List Row :=
  [⟨"Item-2", "R", 2023, 1, 5⟩, ⟨"!!", "R", 2023, 2, 7⟩]

def c1Run1 : Except PyErr IngestResult × Eng × List String :=
  ingest_with_engine sched0 1 ⟨c1Db, 0, [], 0, 0⟩ "f" c1Rows "ck"

def c1Run2 : Except PyErr IngestResult × Eng × List String :=
  ingest_with_engine sched0 2 c1Run1.2.1 "f" c1Rows "ck"

/-- `applyS S l`: write the key/value pairs of `S` into the association
list `l` in order (each write is an in-place update or an append, like
the upsert). -/
def applyS {κ α : Type} [DecidableEq κ] (S : List (κ × α))
    (l : List (κ × α)) : List (κ × α) :=
  S.foldl (fun acc kv => setA kv.1 kv.2 acc) l

/-- The alias resolves to an item record that already lists an equivalent
alias, so `ensure_item` returns its id and changes nothing. -/
def itemResolvedB (dm : DimState) (al : String) : Bool :=
  match lookupA (normalizeAlias al) dm.item_alias_index with
  | none => false
  | some i =>
    match lookupA i dm.itemRecs with
    | none => true
    | some record =>
      record.aliases.any (fun e => normalizeAlias e = normalizeAlias al)

/-- The alias is bound in the region alias index, so `ensure_region`
returns its id and changes nothing. -/
def regionResolvedB (dm : DimState) (al : String) : Bool :=
  (lookupA (normalizeAlias al) dm.region_alias_index).isSome

/-- The series key a row upserts when both its aliases resolve. -/
def rowKey (dm : DimState) (r : Row) : FactKey :=
  ⟨(lookupA (normalizeAlias r.item_alias) dm.item_alias_index).getD 0,
   (lookupA (normalizeAlias r.region_alias) dm.region_alias_index).getD 0,
   r.year, r.month⟩

/-- The key/value write sequence a resolved batch performs on the series
table. -/
def rowKVs (dm : DimState) (rows : List Row) : List (FactKey × Rat) :=
  rows.map (fun r => (rowKey dm r, r.index_value))

deriving instance DecidableEq for Except

/-! ## Claim C6: row-level coercion failures -/

/-- An annex dataframe whose required columns all resolve, with one good
row and one row whose month token cannot be coerced. -/
def c6BadDf : Df :=
  ⟨["Item", "Region", "Year", "Month", "Index"],
   [[("Item", .str "Rice"), ("Region", .str "All India"), ("Year", .int 2023),
     ("Month", .str "Jan"), ("Index", .real 140)],
    [("Item", .str "Milk"), ("Region", .str "All India"), ("Year", .int 2023),
     ("Month", .str "Foo"), ("Index", .real 141)]]⟩

/-- The same dataframe with the bad row removed. -/
def c6GoodDf : Df :=
  ⟨["Item", "Region", "Year", "Month", "Index"],
   [[("Item", .str "Rice"), ("Region", .str "All India"), ("Year", .int 2023),
     ("Month", .str "Jan"), ("Index", .real 140)]]⟩

/-! ## Claim C7: fatal-error reporting by the orchestrator -/

/-- Three one-row batches for the orchestrator scenario. -/
def c7Batches : List SourceBatch :=
  [⟨"mospi", "f1", [⟨"Rice", "All India", 2023, 1, 140⟩]⟩,
   ⟨"data_gov", "f2", [⟨"Milk", "All India", 2023, 1, 141⟩]⟩,
   ⟨"imf", "f3", [⟨"Wheat", "All India", 2023, 2, 142⟩]⟩]

/-- A per-batch environment in which the second batch's storage fails on
every attempt and the others succeed. -/
def c7Scheds (k : Nat) : Sched :=
  if k = 1 then ⟨fun _ => true, false⟩ else ⟨fun _ => false, false⟩

theorem natReprAux_append (fuel n : Nat) (acc : List Char) :
    natReprAux fuel n acc = natReprAux fuel n [] ++ acc := by
  induction fuel generalizing n acc with
  | zero => simp [natReprAux]
  | succ fuel ih =>
    simp only [natReprAux]
    by_cases h : n < 10
    · simp [h]
    · simp only [h, if_false]
      rw [ih (n / 10) (digitChar (n % 10) :: acc), ih (n / 10) [digitChar (n % 10)]]
      simp

theorem digitsVal_append_singleton (l : List Char) (c : Char) :
    digitsVal (l ++ [c]) = 10 * digitsVal l + (c.toNat - 48) := by
  simp [digitsVal, List.foldl_append]

theorem digitChar_toNat {d : Nat} (h : d < 10) : (digitChar d).toNat = 48 + d := by
  interval_cases d <;> decide

theorem digitsVal_natReprAux (fuel n : Nat) (h : n < 10 ^ fuel) :
    digitsVal (natReprAux fuel n []) = n := by
  induction fuel generalizing n with
  | zero =>
    simp only [pow_zero, Nat.lt_one_iff] at h
    subst h; simp [natReprAux, digitsVal]
  | succ fuel ih =>
    simp only [natReprAux]
    by_cases h10 : n < 10
    · simp only [h10, if_true]
      show digitsVal ([] ++ [digitChar n]) = n
      rw [digitsVal_append_singleton, digitChar_toNat h10]
      simp [digitsVal]
    · simp only [h10, if_false]
      rw [natReprAux_append]
      rw [digitsVal_append_singleton, digitChar_toNat (Nat.mod_lt _ (by norm_num))]
      rw [ih (n / 10) (by
        have := (Nat.div_lt_iff_lt_mul (by norm_num : 0 < 10)).mpr
          (by rw [← pow_succ]; exact h)
        exact this)]
      omega

theorem natRepr_injective : Function.Injective natRepr := by
  intro m n h
  have hm : m < 10 ^ (m + 1) := lt_of_lt_of_le (Nat.lt_two_pow m)
    (le_trans (Nat.pow_le_pow_left (by norm_num) m) (Nat.pow_le_pow_right (by norm_num) (Nat.le_succ m)))
  have hn : n < 10 ^ (n + 1) := lt_of_lt_of_le (Nat.lt_two_pow n)
    (le_trans (Nat.pow_le_pow_left (by norm_num) n) (Nat.pow_le_pow_right (by norm_num) (Nat.le_succ n)))
  have hdata : natReprAux (m + 1) m [] = natReprAux (n + 1) n [] := congrArg String.data h
  have := digitsVal_natReprAux (m + 1) m hm
  rw [hdata, digitsVal_natReprAux (n + 1) n hn] at this
  exact this.symm

theorem digitChar_is_digit {d : Nat} (h : d < 10) :
    '0' ≤ digitChar d ∧ digitChar d ≤ '9' := by
  interval_cases d <;> exact ⟨by decide, by decide⟩

/-- Every character produced by `natReprAux` over a digits-only accumulator
is a decimal digit. -/
theorem natReprAux_digits (fuel n : Nat) (acc : List Char)
    (hacc : ∀ c ∈ acc, '0' ≤ c ∧ c ≤ '9') :
    ∀ c ∈ natReprAux fuel n acc, '0' ≤ c ∧ c ≤ '9' := by
  induction fuel generalizing n acc with
  | zero => simpa [natReprAux] using hacc
  | succ fuel ih =>
    simp only [natReprAux]
    by_cases h : n < 10
    · simp only [h, if_true]
      intro c hc
      rcases List.mem_cons.mp hc with rfl | hc
      · exact digitChar_is_digit h
      · exact hacc c hc
    · simp only [h, if_false]
      refine ih (n / 10) _ ?_
      intro c hc
      rcases List.mem_cons.mp hc with rfl | hc
      · exact digitChar_is_digit (Nat.mod_lt _ (by norm_num))
      · exact hacc c hc

theorem natRepr_digits (n : Nat) : ∀ c ∈ (natRepr n).data, '0' ≤ c ∧ c ≤ '9' :=
  natReprAux_digits (n + 1) n [] (by simp)

theorem natReprAux_ne_nil (fuel n : Nat) (acc : List Char) :
    natReprAux (fuel + 1) n acc ≠ [] := by
  simp only [natReprAux]
  by_cases h : n < 10
  · simp [h]
  · simp only [h, if_false]
    rw [natReprAux_append]
    simp

theorem natRepr_ne_empty (n : Nat) : natRepr n ≠ "" := by
  intro h
  exact natReprAux_ne_nil n n [] (congrArg String.data h)

theorem lookupA_setA_self {κ α : Type} [DecidableEq κ] (k : κ) (v : α)
    (l : List (κ × α)) : lookupA k (setA k v l) = some v := by
  induction l with
  | nil => simp [setA, lookupA]
  | cons e rest ih =>
    simp only [setA]
    by_cases h : e.fst = k
    · simp [lookupA, h]
    · simp [lookupA, h, ih]

theorem lookupA_setA_ne {κ α : Type} [DecidableEq κ] {k k' : κ} (v : α)
    (l : List (κ × α)) (h : k' ≠ k) :
    lookupA k' (setA k v l) = lookupA k' l := by
  have hkk : k ≠ k' := fun h' => h h'.symm
  induction l with
  | nil =>
    simp only [setA, lookupA]
    rw [if_neg hkk]
  | cons e rest ih =>
    simp only [setA]
    by_cases he : e.fst = k
    · subst he
      simp only [lookupA]
      rw [if_neg hkk, if_neg hkk]
    · simp only [he, if_false, lookupA]
      by_cases he' : e.fst = k'
      · simp [he']
      · simp [he', ih]

theorem setA_of_lookupA_none {κ α : Type} [DecidableEq κ] {k : κ} (v : α)
    {l : List (κ × α)} (h : lookupA k l = none) :
    setA k v l = l ++ [(k, v)] := by
  induction l with
  | nil => simp [setA]
  | cons e rest ih =>
    simp only [lookupA] at h
    by_cases he : e.fst = k
    · simp [he] at h
    · simp only [he, if_false] at h
      simp [setA, he, ih h]

theorem mem_keysA_iff_lookupA {κ α : Type} [DecidableEq κ] (k : κ)
    (l : List (κ × α)) : k ∈ keysA l ↔ (lookupA k l).isSome := by
  induction l with
  | nil => simp [keysA, lookupA]
  | cons e rest ih =>
    simp only [keysA, List.map_cons, List.mem_cons, lookupA]
    by_cases he : e.fst = k
    · simp [he]
    · simp only [he, if_false]
      constructor
      · intro h
        rcases h with h | h
        · exact absurd h.symm he
        · exact (ih.mp (by simpa [keysA] using h))
      · intro h
        exact Or.inr (by simpa [keysA] using ih.mpr h)

theorem keysA_setA_of_mem {κ α : Type} [DecidableEq κ] {k : κ} (v : α)
    {l : List (κ × α)} (h : (lookupA k l).isSome) :
    keysA (setA k v l) = keysA l := by
  induction l with
  | nil => simp [lookupA] at h
  | cons e rest ih =>
    simp only [lookupA] at h
    by_cases he : e.fst = k
    · simp [setA, he, keysA]
    · simp only [he, if_false] at h
      have hrec := ih h
      simp only [setA, he, if_false, keysA, List.map_cons] at hrec ⊢
      rw [hrec]

theorem lookupA_eq_none_of_not_mem {κ α : Type} [DecidableEq κ] {k : κ}
    {l : List (κ × α)} (h : k ∉ keysA l) : lookupA k l = none := by
  cases hcon : lookupA k l with
  | none => rfl
  | some v =>
    exact absurd ((mem_keysA_iff_lookupA k l).mpr (by simp [hcon])) h

theorem keysA_setA_of_none {κ α : Type} [DecidableEq κ] {k : κ} (v : α)
    {l : List (κ × α)} (h : lookupA k l = none) :
    keysA (setA k v l) = keysA l ++ [k] := by
  rw [setA_of_lookupA_none v h]
  simp [keysA]

theorem lookupA_append_left {κ α : Type} [DecidableEq κ] (k : κ)
    {l₁ : List (κ × α)} (l₂ : List (κ × α)) (h : (lookupA k l₁).isSome) :
    lookupA k (l₁ ++ l₂) = lookupA k l₁ := by
  induction l₁ with
  | nil => simp [lookupA] at h
  | cons e rest ih =>
    simp only [lookupA, List.cons_append]
    by_cases he : e.fst = k
    · simp [he]
    · simp only [lookupA, he, if_false] at h
      simp [he, ih h]

theorem lookupA_append_right {κ α : Type} [DecidableEq κ] (k : κ)
    {l₁ : List (κ × α)} (l₂ : List (κ × α)) (h : lookupA k l₁ = none) :
    lookupA k (l₁ ++ l₂) = lookupA k l₂ := by
  induction l₁ with
  | nil => simp
  | cons e rest ih =>
    simp only [lookupA] at h
    by_cases he : e.fst = k
    · simp [he] at h
    · simp only [he, if_false] at h
      simp [lookupA, he, ih h]

/-- Two association lists with identical key sequences and identical
lookups are equal, provided the keys are duplicate-free. -/
theorem assoc_ext {κ α : Type} [DecidableEq κ] {l₁ : List (κ × α)} :
    ∀ {l₂ : List (κ × α)}, keysA l₁ = keysA l₂ → (keysA l₁).Nodup →
    (∀ k, lookupA k l₁ = lookupA k l₂) → l₁ = l₂ := by
  induction l₁ with
  | nil =>
    intro l₂ hk _ _
    cases l₂ with
    | nil => rfl
    | cons e r => simp [keysA] at hk
  | cons e₁ r₁ ih =>
    intro l₂ hk hnd hl
    cases l₂ with
    | nil => simp [keysA] at hk
    | cons e₂ r₂ =>
      simp only [keysA, List.map_cons, List.cons.injEq] at hk
      obtain ⟨hfst, htail⟩ := hk
      have hnd' : e₁.fst ∉ keysA r₁ ∧ (keysA r₁).Nodup :=
        List.nodup_cons.mp hnd
      have hv : e₁.snd = e₂.snd := by
        have h := hl e₁.fst
        simp only [lookupA, if_pos rfl] at h
        rw [if_pos hfst.symm] at h
        exact Option.some.inj h
      have hrest : r₁ = r₂ := by
        refine ih htail (by simpa [keysA] using hnd'.2) ?_
        intro k
        by_cases hke : e₁.fst = k
        · subst hke
          have hmem₂ : e₁.fst ∉ keysA r₂ := by
            have := hnd'.1
            unfold keysA at this ⊢
            rw [← htail]
            exact this
          rw [lookupA_eq_none_of_not_mem hnd'.1,
            lookupA_eq_none_of_not_mem hmem₂]
        · have h := hl k
          simp only [lookupA, if_neg hke, if_neg (hfst ▸ hke)] at h
          exact h
      have hee : e₁ = e₂ := Prod.ext hfst hv
      rw [hee, hrest]

theorem flatMap_asciiFold_of_ascii {l : List Char}
    (h : ∀ c ∈ l, c.toNat < 128) : l.flatMap asciiFold = l := by
  induction l with
  | nil => rfl
  | cons c rest ih =>
    have hc := h c (List.mem_cons_self c rest)
    simp only [List.flatMap_cons, asciiFold, hc, if_true]
    rw [ih (fun d hd => h d (List.mem_cons_of_mem c hd))]
    rfl

theorem filter_keep_of_all {l : List Char} (h : ∀ c ∈ l, keepSlugChar c) :
    l.filter keepSlugChar = l :=
  List.filter_eq_self.mpr (fun c hc => h c hc)

theorem dropWhile_eq_self_of_none {p : Char → Bool} {l : List Char}
    (h : ∀ c ∈ l, ¬p c) : l.dropWhile p = l := by
  cases l with
  | nil => rfl
  | cons c rest =>
    have := h c (List.mem_cons_self c rest)
    simp [List.dropWhile, this]

theorem stripChars_of_no_space {l : List Char} (h : ∀ c ∈ l, ¬pySpace c) :
    stripChars l = l := by
  unfold stripChars
  rw [dropWhile_eq_self_of_none h,
    dropWhile_eq_self_of_none (fun c hc => h c (List.mem_reverse.mp hc)),
    List.reverse_reverse]

theorem map_pyLower_of_no_upper {l : List Char}
    (h : ∀ c ∈ l, pyLowerChar c = c) : l.map pyLowerChar = l := by
  induction l with
  | nil => rfl
  | cons c rest ih =>
    simp only [List.map_cons, h c (List.mem_cons_self c rest),
      ih (fun d hd => h d (List.mem_cons_of_mem c hd))]

theorem char_toNat_hyphen {c : Char} (h : c = '-') : c.toNat = 45 := by
  subst h; rfl

theorem slugChar_facts {c : Char} (h : slugChar c) :
    c.toNat < 128 ∧ keepSlugChar c ∧ ¬pySpace c ∧ pyLowerChar c = c ∧
      ¬collapseClass c := by
  simp only [slugChar, Bool.or_eq_true, Bool.and_eq_true, decide_eq_true_eq] at h
  refine ⟨by omega, ?_, ?_, ?_, ?_⟩
  · simp only [keepSlugChar, asciiAlnum, Bool.or_eq_true, Bool.and_eq_true,
      decide_eq_true_eq]
    omega
  · intro hcon
    simp only [pySpace, Bool.or_eq_true, decide_eq_true_eq] at hcon
    omega
  · simp only [pyLowerChar]
    rw [if_neg (by
      intro hcon
      simp only [Bool.and_eq_true, decide_eq_true_eq] at hcon
      omega)]
  · intro hcon
    have h95 : ¬c = '_' := by intro hcon2; subst hcon2; exact absurd h (by decide)
    have h45 : ¬c = '-' := by intro hcon2; subst hcon2; exact absurd h (by decide)
    simp only [collapseClass, pySpace, Bool.or_eq_true, decide_eq_true_eq,
      h95, h45, or_false] at hcon
    omega

theorem hyphen_facts :
    ('-' : Char).toNat < 128 ∧ keepSlugChar '-' ∧ ¬pySpace '-' ∧
      pyLowerChar '-' = '-' ∧ collapseClass '-' := by
  refine ⟨by decide, by decide, by decide, ?_, by decide⟩
  simp only [pyLowerChar]
  rw [if_neg (by decide)]

theorem slugChar_ne_hyphen {c : Char} (h : slugChar c) : c ≠ '-' := by
  intro hcon
  subst hcon
  exact absurd h (by decide)

theorem collapseAux_cons_not (b : Bool) {c : Char} (t : List Char)
    (h : ¬collapseClass c) :
    collapseAux b (c :: t) = c :: collapseAux false t := by
  cases b <;> simp [collapseAux, h]

theorem collapseAux_cons_hyphen_false {c : Char} (t : List Char)
    (h : collapseClass c) :
    collapseAux false (c :: t) = '-' :: collapseAux true t := by
  simp [collapseAux, h]

theorem noAdjHyphen_tail {c : Char} {t : List Char}
    (h : noAdjHyphen (c :: t)) : noAdjHyphen t := by
  cases t with
  | nil => rfl
  | cons d u =>
    simp only [noAdjHyphen, Bool.and_eq_true] at h
    exact h.2

/-- `collapseAux` leaves a normal-form list unchanged. -/
theorem collapseAux_of_normal : ∀ {l : List Char},
    (∀ c ∈ l, slugChar c ∨ c = '-') → noAdjHyphen l → collapseAux false l = l
  | [], _, _ => rfl
  | c :: rest, hall, hadj => by
    rcases hall c (List.mem_cons_self c rest) with hc | hc
    · rw [collapseAux_cons_not false rest (slugChar_facts hc).2.2.2.2,
        collapseAux_of_normal (fun d hd => hall d (List.mem_cons_of_mem c hd))
          (noAdjHyphen_tail hadj)]
    · subst hc
      rw [collapseAux_cons_hyphen_false rest hyphen_facts.2.2.2.2]
      cases rest with
      | nil => rfl
      | cons d t =>
        have hd := hall d (List.mem_cons_of_mem _ (List.mem_cons_self d t))
        have hdne : d ≠ '-' := by
          intro hcon
          subst hcon
          simp [noAdjHyphen] at hadj
        have hds : slugChar d := by
          rcases hd with hd | hd
          · exact hd
          · exact absurd hd hdne
        rw [collapseAux_cons_not true t (slugChar_facts hds).2.2.2.2,
          collapseAux_of_normal
            (fun e he => hall e (List.mem_cons_of_mem _ (List.mem_cons_of_mem d he)))
            (noAdjHyphen_tail (noAdjHyphen_tail hadj))]

/-- `slugify` fixes strings already in normal form. -/
theorem slugifyChars_of_normal {l : List Char}
    (hall : ∀ c ∈ l, slugChar c ∨ c = '-') (hadj : noAdjHyphen l) :
    slugifyChars l = l := by
  unfold slugifyChars
  have hfacts : ∀ c ∈ l,
      c.toNat < 128 ∧ keepSlugChar c ∧ ¬pySpace c ∧ pyLowerChar c = c := by
    intro c hc
    rcases hall c hc with h | h
    · exact ⟨(slugChar_facts h).1, (slugChar_facts h).2.1,
        (slugChar_facts h).2.2.1, (slugChar_facts h).2.2.2.1⟩
    · subst h
      exact ⟨hyphen_facts.1, hyphen_facts.2.1, hyphen_facts.2.2.1,
        hyphen_facts.2.2.2.1⟩
  rw [flatMap_asciiFold_of_ascii (fun c hc => (hfacts c hc).1),
    filter_keep_of_all (fun c hc => (hfacts c hc).2.1),
    stripChars_of_no_space (fun c hc => (hfacts c hc).2.2.1),
    map_pyLower_of_no_upper (fun c hc => (hfacts c hc).2.2.2),
    collapseAux_of_normal hall hadj]

theorem char_ofNat_toNat {n : Nat} (h : n < 55296) : (Char.ofNat n).toNat = n := by
  have hv : n.isValidChar := Or.inl h
  simp [Char.ofNat, hv, Char.ofNatAux, Char.toNat, UInt32.ofNat', UInt32.toNat]

/-- Lower-casing a character kept by the slug filter yields a slug
character, a space, or a hyphen. -/
theorem pyLowerChar_of_keep {c : Char} (h : keepSlugChar c) :
    slugChar (pyLowerChar c) ∨ pySpace (pyLowerChar c) ∨ pyLowerChar c = '-' := by
  simp only [keepSlugChar, asciiAlnum, Bool.or_eq_true, Bool.and_eq_true,
    decide_eq_true_eq] at h
  rcases h with (((h | h) | h) | h) | h
  · left
    simp only [pyLowerChar]
    rw [if_neg (by simp only [Bool.and_eq_true, decide_eq_true_eq]; omega)]
    simp only [slugChar, Bool.or_eq_true, Bool.and_eq_true, decide_eq_true_eq]
    omega
  · left
    simp only [pyLowerChar]
    rw [if_pos (by simp only [Bool.and_eq_true, decide_eq_true_eq]; omega)]
    simp only [slugChar, Bool.or_eq_true, Bool.and_eq_true, decide_eq_true_eq,
      char_ofNat_toNat (by omega : c.toNat + 32 < 55296)]
    omega
  · left
    simp only [pyLowerChar]
    rw [if_neg (by simp only [Bool.and_eq_true, decide_eq_true_eq]; omega)]
    simp only [slugChar, Bool.or_eq_true, Bool.and_eq_true, decide_eq_true_eq]
    omega
  · right; left
    simp only [pySpace, Bool.or_eq_true, decide_eq_true_eq] at h
    simp only [pyLowerChar]
    rw [if_neg (by simp only [Bool.and_eq_true, decide_eq_true_eq]; omega)]
    simp only [pySpace, Bool.or_eq_true, decide_eq_true_eq]
    omega
  · right; right
    subst h
    exact hyphen_facts.2.2.2.1

/-- Characters emitted by `collapseAux` from an input of slug characters,
spaces, underscores and hyphens are slug characters or hyphens. -/
theorem collapseAux_chars : ∀ {l : List Char} (b : Bool),
    (∀ c ∈ l, slugChar c ∨ pySpace c ∨ c = '-') →
    ∀ c ∈ collapseAux b l, slugChar c ∨ c = '-'
  | [], _, _ => by simp [collapseAux]
  | c :: rest, b, hall => by
    intro d hd
    by_cases hc : collapseClass c
    · cases b with
      | true =>
        rw [collapseAux] at hd
        simp only [hc, if_true] at hd
        exact collapseAux_chars true
          (fun e he => hall e (List.mem_cons_of_mem c he)) d hd
      | false =>
        rw [collapseAux_cons_hyphen_false rest hc] at hd
        rcases List.mem_cons.mp hd with rfl | hd
        · exact Or.inr rfl
        · exact collapseAux_chars true
            (fun e he => hall e (List.mem_cons_of_mem c he)) d hd
    · rw [collapseAux_cons_not b rest hc] at hd
      rcases List.mem_cons.mp hd with rfl | hd
      · rcases hall d (List.mem_cons_self d rest) with h | h | h
        · exact Or.inl h
        · exact absurd (by
            simp only [collapseClass, Bool.or_eq_true]
            exact Or.inl (Or.inl h)) hc
        · exact Or.inr h
      · exact collapseAux_chars false
          (fun e he => hall e (List.mem_cons_of_mem c he)) d hd

/-- The head of `collapseAux true l` is never a collapse-class character. -/
theorem collapseAux_true_head : ∀ {l : List Char} {d : Char} {t : List Char},
    collapseAux true l = d :: t → ¬collapseClass d
  | [], _, _, h => by simp [collapseAux] at h
  | c :: rest, d, t, h => by
    by_cases hc : collapseClass c
    · rw [collapseAux] at h
      simp only [hc, if_true] at h
      exact collapseAux_true_head h
    · rw [collapseAux_cons_not true rest hc] at h
      cases h
      exact hc

theorem noAdjHyphen_cons {c : Char} {l : List Char} (hl : noAdjHyphen l)
    (hd : ∀ d t, l = d :: t → ¬(c = '-' ∧ d = '-')) :
    noAdjHyphen (c :: l) := by
  cases l with
  | nil => rfl
  | cons d t =>
    simp only [noAdjHyphen, Bool.and_eq_true]
    constructor
    · have := hd d t rfl
      simp only [Bool.not_eq_true', Bool.and_eq_false_iff]
      by_cases h1 : c = '-'
      · right
        simp only [decide_eq_false_iff_not]
        exact fun h2 => this ⟨h1, h2⟩
      · left
        simp only [decide_eq_false_iff_not]
        exact h1
    · exact hl

/-- `collapseAux` never emits two adjacent hyphens. -/
theorem collapseAux_noAdj : ∀ {l : List Char} (b : Bool),
    noAdjHyphen (collapseAux b l)
  | [], _ => rfl
  | c :: rest, b => by
    by_cases hc : collapseClass c
    · cases b with
      | true =>
        rw [collapseAux]
        simp only [hc, if_true]
        exact collapseAux_noAdj true
      | false =>
        rw [collapseAux_cons_hyphen_false rest hc]
        refine noAdjHyphen_cons (collapseAux_noAdj true) ?_
        intro d t hdt hcon
        exact (collapseAux_true_head hdt) (by
          simp only [collapseClass, Bool.or_eq_true]
          right
          simp [hcon.2])
    · rw [collapseAux_cons_not b rest hc]
      refine noAdjHyphen_cons (collapseAux_noAdj false) ?_
      intro d t _ hcon
      exact hc (by
        simp only [collapseClass, Bool.or_eq_true]
        right
        simp [hcon.1])

theorem mem_stripChars {c : Char} {l : List Char} (h : c ∈ stripChars l) :
    c ∈ l := by
  unfold stripChars at h
  have h1 := List.mem_reverse.mp h
  have h2 := (List.dropWhile_sublist _).mem h1
  have h3 := List.mem_reverse.mp h2
  exact (List.dropWhile_sublist _).mem h3

/-- Every `slugify` output is in normal form. -/
theorem slugifyChars_normal (l : List Char) :
    (∀ c ∈ slugifyChars l, slugChar c ∨ c = '-') ∧
      noAdjHyphen (slugifyChars l) := by
  unfold slugifyChars
  refine ⟨?_, collapseAux_noAdj false⟩
  intro c hc
  refine collapseAux_chars false ?_ c hc
  intro d hd
  rcases List.mem_map.mp hd with ⟨e, he, rfl⟩
  have hkeep : keepSlugChar e :=
    (List.mem_filter.mp (mem_stripChars he)).2
  exact pyLowerChar_of_keep hkeep

theorem slugify_data (s : String) : (slugify s).data = slugifyChars s.data := rfl

theorem slugifyChars_idem (l : List Char) :
    slugifyChars (slugifyChars l) = slugifyChars l :=
  slugifyChars_of_normal (slugifyChars_normal l).1 (slugifyChars_normal l).2

set_option maxHeartbeats 1000000 in
/-- `slugify` is idempotent. -/
theorem slugify_idempotent (s : String) : slugify (slugify s) = slugify s := by
  apply String.ext
  exact slugifyChars_idem s.data

theorem keep_space_iff (c : Char) :
    (keepSlugChar c → pySpace c) ↔ (¬asciiAlnum c ∧ c ≠ '-') := by
  constructor
  · intro h
    constructor
    · intro ha
      have hs := h (by
        simp only [keepSlugChar, Bool.or_eq_true]
        exact Or.inl (Or.inl ha))
      simp only [asciiAlnum, Bool.or_eq_true, Bool.and_eq_true,
        decide_eq_true_eq] at ha
      simp only [pySpace, Bool.or_eq_true, decide_eq_true_eq] at hs
      omega
    · intro hd
      subst hd
      exact absurd (h (by decide)) (by decide)
  · rintro ⟨hna, hnd⟩ hk
    simp only [keepSlugChar, Bool.or_eq_true] at hk
    rcases hk with (hk | hk) | hk
    · exact absurd hk hna
    · exact hk
    · simp only [decide_eq_true_eq] at hk
      exact absurd hk hnd

theorem collapseAux_false_eq_nil_iff {l : List Char} :
    collapseAux false l = [] ↔ l = [] := by
  cases l with
  | nil => simp [collapseAux]
  | cons c rest =>
    constructor
    · intro h
      by_cases hc : collapseClass c
      · rw [collapseAux_cons_hyphen_false rest hc] at h
        simp at h
      · rw [collapseAux_cons_not false rest hc] at h
        simp at h
    · intro h
      simp at h

theorem forall_dropWhile_iff {p : Char → Bool} {l : List Char} :
    (∀ c ∈ l.dropWhile p, p c) ↔ ∀ c ∈ l, p c := by
  constructor
  · intro h c hc
    rw [← List.takeWhile_append_dropWhile (p := p) (l := l)] at hc
    rcases List.mem_append.mp hc with hc | hc
    · exact List.mem_takeWhile_imp hc
    · exact h c hc
  · intro h c hc
    exact h c ((List.dropWhile_sublist _).mem hc)

theorem stripChars_eq_nil_iff {l : List Char} :
    stripChars l = [] ↔ ∀ c ∈ l, pySpace c := by
  unfold stripChars
  rw [List.reverse_eq_nil_iff, List.dropWhile_eq_nil_iff]
  constructor
  · intro h
    rw [← forall_dropWhile_iff (p := pySpace) (l := l)]
    intro c hc
    exact h c (List.mem_reverse.mpr hc)
  · intro h c hc
    exact h c ((List.dropWhile_sublist _).mem (List.mem_reverse.mp hc))

theorem slugifyChars_eq_nil_iff {l : List Char} :
    slugifyChars l = [] ↔
      ∀ c ∈ l.flatMap asciiFold, ¬asciiAlnum c ∧ c ≠ '-' := by
  unfold slugifyChars
  rw [collapseAux_false_eq_nil_iff, List.map_eq_nil_iff, stripChars_eq_nil_iff]
  constructor
  · intro h c hc
    rw [← keep_space_iff]
    intro hk
    exact h c (List.mem_filter.mpr ⟨hc, hk⟩)
  · intro h c hc
    have := List.mem_filter.mp hc
    exact (keep_space_iff c).mpr (h c this.1) this.2

theorem slugify_eq_empty_iff {s : String} :
    slugify s = "" ↔ ∀ c ∈ s.data.flatMap asciiFold, ¬asciiAlnum c ∧ c ≠ '-' := by
  rw [show (slugify s = "") ↔ slugifyChars s.data = [] from by
    constructor
    · intro h; exact congrArg String.data h
    · intro h; exact String.ext h]
  exact slugifyChars_eq_nil_iff

/-- When the slug of `s` is empty, the fallback token `s.strip().lower()`
contains no ASCII alphanumeric character and no hyphen. -/
theorem fallback_chars {s : String} (h : slugify s = "") :
    ∀ c ∈ (pyStripLower s).data, ¬asciiAlnum c ∧ c ≠ '-' := by
  have hall := slugify_eq_empty_iff.mp h
  intro c hc
  rcases List.mem_map.mp hc with ⟨d, hd, rfl⟩
  have hdl : d ∈ s.data := mem_stripChars hd
  by_cases hascii : d.toNat < 128
  · have hmem : d ∈ s.data.flatMap asciiFold :=
      List.mem_flatMap.mpr ⟨d, hdl, by simp [asciiFold, hascii]⟩
    have hfacts := hall d hmem
    have hna := hfacts.1
    simp only [asciiAlnum, Bool.or_eq_true, Bool.and_eq_true,
      decide_eq_true_eq, not_or, not_and] at hna
    have hld : pyLowerChar d = d := by
      simp only [pyLowerChar]
      rw [if_neg (by
        simp only [Bool.and_eq_true, decide_eq_true_eq]
        omega)]
    rw [hld]
    exact hfacts
  · have hld : pyLowerChar d = d := by
      simp only [pyLowerChar]
      rw [if_neg (by
        simp only [Bool.and_eq_true, decide_eq_true_eq]
        omega)]
    rw [hld]
    constructor
    · intro ha
      simp only [asciiAlnum, Bool.or_eq_true, Bool.and_eq_true,
        decide_eq_true_eq] at ha
      omega
    · intro hd45
      subst hd45
      exact hascii (by decide)

/-- When the slug of `s` is empty, the slug of the fallback token is also
empty. -/
theorem fallback_slug_empty {s : String} (h : slugify s = "") :
    slugify (pyStripLower s) = "" := by
  apply slugify_eq_empty_iff.mpr
  intro c hc
  rcases List.mem_flatMap.mp hc with ⟨d, hd, hcd⟩
  by_cases hascii : d.toNat < 128
  · simp only [asciiFold, hascii, if_true, List.mem_singleton] at hcd
    subst hcd
    exact fallback_chars h _ hd
  · simp [asciiFold, hascii] at hcd

theorem normalizeAlias_of_ne {s : String} (h : slugify s ≠ "") :
    normalizeAlias s = slugify s := by
  unfold normalizeAlias
  simp [h]

theorem normalizeAlias_of_empty {s : String} (h : slugify s = "") :
    normalizeAlias s = pyStripLower s := by
  unfold normalizeAlias
  simp [h]

/-- `normalizeAlias` fixes nonempty `slugify` fixed points. -/
theorem normalizeAlias_of_fixed {s : String} (hfix : slugify s = s)
    (hne : s ≠ "") : normalizeAlias s = s := by
  unfold normalizeAlias
  rw [hfix]
  simp [hne]

/-! ## Claim C10: integer months pass `month_to_number` unchecked -/

/-- C10: `month_to_number` validates only string inputs — every integer
argument is returned unchanged with no 1–12 range check, so an
out-of-range integer month (0 or 13) passes month normalization and is
rejected only by the downstream date construction
(`datetime(year, month, 1)`, modelled by `dateOk`). -/
theorem C10_month_int_passthrough :
    (∀ n : Int, month_to_number (.int n) = .ok n) ∧
      (∀ y : Int, dateOk y 13 = false) ∧ (∀ y : Int, dateOk y 0 = false) := by
  refine ⟨fun n => rfl, fun y => ?_, fun y => ?_⟩ <;> simp [dateOk]

/-! ## Claim C5: `ensure_region` is not symmetric to `ensure_item` -/

/-- C5 counterexample: creating a region for alias "Delhi (Urban)" stores
type `"unknown"` even though `_infer_region_type` would say `"urban"`,
and re-resolving the previously unseen raw alias "Delhi  Urban" (same
normalized token) returns the id without registering the new alias —
the resolver state and the database are left completely unchanged. -/
theorem C5_counterexample :
    ((ensure_region emptyDim ⟨[], [], 1, 1, [], [], []⟩
        "Delhi (Urban)").2.2.regions =
      [⟨1, "delhi-urban", "Delhi (Urban)", "unknown"⟩]) ∧
    _infer_region_type "Delhi (Urban)" = "urban" ∧
    (let r := ensure_region emptyDim ⟨[], [], 1, 1, [], [], []⟩ "Delhi (Urban)"
     ensure_region r.2.1 r.2.2 "Delhi  Urban" = (1, r.2.1, r.2.2)) := by
  refine ⟨by decide, by decide, by decide⟩

/-- C5 amended: `ensure_region` is keyed by code as `ensure_item` is by
slug, but an existing match returns the id with no state change (the new
raw alias is not registered), and a newly created region always stores
type `"unknown"` — the region type inferred by the adapters is not
consulted. -/
theorem C5_region_resolution (dm : DimState) (db : DB) (al : String) :
    (∀ i, lookupA (normalizeAlias al) dm.region_alias_index = some i →
        ensure_region dm db al = (i, dm, db)) ∧
      (lookupA (normalizeAlias al) dm.region_alias_index = none →
        (ensure_region dm db al).1 = db.nextRegionId ∧
          (ensure_region dm db al).2.2.regions = db.regions ++
            [⟨db.nextRegionId,
              _unique_region_code (slugify al) dm.region_code_index, al,
              "unknown"⟩]) := by
  constructor
  · intro i h
    simp [ensure_region, h]
  · intro h
    simp [ensure_region, h]

/-- Witness for C5 amended at a concrete fresh alias. -/
theorem C5_region_resolution_witness :
    (ensure_region emptyDim ⟨[], [], 1, 1, [], [], []⟩ "Delhi (Urban)").1 = 1 ∧
      (ensure_region emptyDim ⟨[], [], 1, 1, [], [], []⟩
          "Delhi (Urban)").2.2.regions =
        ([] : List RegionRec) ++
          [⟨1, _unique_region_code (slugify "Delhi (Urban)") [],
            "Delhi (Urban)", "unknown"⟩] :=
  (C5_region_resolution emptyDim ⟨[], [], 1, 1, [], [], []⟩
    "Delhi (Urban)").2 (by decide)

/-- C6 counterexample: in the annex adapter a single row whose month
token fails coercion aborts the whole batch with
`ValueError("Invalid record encountered…")` instead of being dropped —
the columns resolve (the same frame without the bad row parses fine), and
the phase-3 wrapper `parse_mospi_annex` propagates the same error. -/
theorem C6_counterexample :
    parse_annex c6BadDf = .error (.valueErr "Invalid record encountered") ∧
      parse_annex c6GoodDf =
        .ok [⟨"Rice", "All India", 2023, 1, 140⟩] ∧
      parse_mospi_annex c6BadDf =
        .error (.valueErr "Invalid record encountered") := by
  refine ⟨by decide, by decide, by decide⟩

/-- Dropping a `ValueError` row from a phase-3 loop leaves the rest of the
parse unchanged. -/
theorem phase3Filter_drop {α : Type} (f : α → Except PyErr (Option NormRow))
    (x : α) (post : List α) (e : String)
    (hx : f x = .error (.valueErr e)) :
    ∀ pre : List α,
      phase3Filter f (pre ++ x :: post) = phase3Filter f (pre ++ post) := by
  intro pre
  induction pre with
  | nil =>
    simp only [List.nil_append, phase3Filter, hx]
  | cons y rest ih =>
    simp only [List.cons_append, phase3Filter]
    cases hy : f y with
    | ok v => cases v <;> simp [ih]
    | error err => cases err <;> simp [ih]

/-- A `ValueError`/`TypeError` row anywhere in an annex batch whose other
rows do not raise non-coercion errors turns the whole `annexLoop` into a
`ValueError`. -/
theorem annexLoop_fatal (rows : List (List (String × Cell)))
    (hattr : ∀ r ∈ rows, annexRowNorm r ≠ .error .attributeErr ∧
      annexRowNorm r ≠ .error .transientErr)
    (hbad : ∃ r ∈ rows, (∃ e, annexRowNorm r = .error (.valueErr e)) ∨
      annexRowNorm r = .error .typeErr) :
    ∃ m, annexLoop rows = .error (.valueErr m) := by
  induction rows with
  | nil => simp at hbad
  | cons row rest ih =>
    obtain ⟨r, hr, hcase⟩ := hbad
    cases hres : annexRowNorm row with
    | ok v =>
      have hrrest : r ∈ rest := by
        rcases List.mem_cons.mp hr with rfl | h
        · rcases hcase with ⟨e, he⟩ | he <;> rw [hres] at * <;> simp_all
        · exact h
      obtain ⟨m, hm⟩ := ih
        (fun s hs => hattr s (List.mem_cons_of_mem row hs)) ⟨r, hrrest, hcase⟩
      refine ⟨m, ?_⟩
      simp only [annexLoop, hres, hm]
      rfl
    | error err =>
      cases err with
      | valueErr e =>
        exact ⟨"Invalid record encountered", by simp [annexLoop, hres]⟩
      | typeErr =>
        exact ⟨"Invalid record encountered", by simp [annexLoop, hres]⟩
      | attributeErr =>
        exact absurd hres (hattr row (List.mem_cons_self row rest)).1
      | transientErr =>
        exact absurd hres (hattr row (List.mem_cons_self row rest)).2

/-- C6 amended: row-level coercion failure is non-fatal in the three
phase-3 row loops (data.gov, IMF, DPIIT) — the failing row is dropped and
the remaining rows are parsed — but in the annex adapter `parse_annex` a
row whose month token or numeric value fails coercion raises
`ValueError` and fails the whole batch. -/
theorem C6_row_coercion (e : String) :
    (∀ (row : List (String × Cell)) (pre post : List (List (String × Cell))),
        datagovRowNorm row = .error (.valueErr e) →
        phase3Filter datagovRowNorm (pre ++ row :: post) =
          phase3Filter datagovRowNorm (pre ++ post)) ∧
      (∀ (entry : List (String × Cell)) (pre post : List (List (String × Cell))),
        imfEntryNorm entry = .error (.valueErr e) →
        phase3Filter imfEntryNorm (pre ++ entry :: post) =
          phase3Filter imfEntryNorm (pre ++ post)) ∧
      (∀ (row : List (String × Cell)) (pre post : List (List (String × Cell))),
        dpiitRowNorm row = .error (.valueErr e) →
        phase3Filter dpiitRowNorm (pre ++ row :: post) =
          phase3Filter dpiitRowNorm (pre ++ post)) ∧
      (∀ rows : List (List (String × Cell)),
        (∀ r ∈ rows, annexRowNorm r ≠ .error .attributeErr ∧
          annexRowNorm r ≠ .error .transientErr) →
        (∃ r ∈ rows, (∃ e2, annexRowNorm r = .error (.valueErr e2)) ∨
          annexRowNorm r = .error .typeErr) →
        ∃ m, annexLoop rows = .error (.valueErr m)) := by
  refine ⟨?_, ?_, ?_, ?_⟩
  · intro row pre post hx
    exact phase3Filter_drop datagovRowNorm row post e hx pre
  · intro entry pre post hx
    exact phase3Filter_drop imfEntryNorm entry post e hx pre
  · intro row pre post hx
    exact phase3Filter_drop dpiitRowNorm row post e hx pre
  · intro rows h1 h2
    exact annexLoop_fatal rows h1 h2

/-- Witness for C6 amended: a concrete bad data.gov row is dropped while
its neighbours survive, and a concrete bad annex row fails the batch. -/
theorem C6_row_coercion_witness :
    (phase3Filter datagovRowNorm
        ([[("item", .str "Rice"), ("state", .str "Delhi"),
           ("year", .int 2023), ("month", .str "Jan"), ("value", .real 140)]] ++
          [("item", .str "Milk"), ("state", .str "Delhi"), ("year", .int 2023),
           ("month", .str "Jan"), ("value", .str "oops")] ::
          [[("item", .str "Wheat"), ("state", .str "Delhi"),
            ("year", .int 2023), ("month", .str "Feb"), ("value", .real 141)]]) =
      phase3Filter datagovRowNorm
        ([[("item", .str "Rice"), ("state", .str "Delhi"),
           ("year", .int 2023), ("month", .str "Jan"), ("value", .real 140)]] ++
          [[("item", .str "Wheat"), ("state", .str "Delhi"),
            ("year", .int 2023), ("month", .str "Feb"), ("value", .real 141)]])) ∧
      (∃ m, annexLoop [[("item", .str "Milk"), ("region", .str "All India"),
        ("year", .int 2023), ("month", .str "Foo"), ("index_value", .real 141)]] =
          .error (.valueErr m)) :=
  ⟨(C6_row_coercion "could not convert string to float").1 _ _ _ (by decide),
   (C6_row_coercion "could not convert string to float").2.2.2 _
     (by decide) (by
       refine ⟨_, List.mem_cons_self _ _, Or.inl ⟨"Unsupported month value", ?_⟩⟩
       decide)⟩

/-! ## Claim C9: scope enforcement -/

theorem _normalized_row_scope {ia ra : String} {y m : Int} {v : Rat}
    {source : String} {isl cn rc rt : Option String}
    {ea er : Option (List String)} {r : NormRow}
    (h : _normalized_row ia ra y m v source isl cn rc rt ea er = .ok r) :
    _year_in_scope r.year := by
  unfold _normalized_row at h
  by_cases hs : _year_in_scope y = true
  · rw [hs] at h
    simp only [Bool.not_true, Bool.false_eq_true, if_false, Except.ok.injEq] at h
    subst h
    exact hs
  · rw [Bool.not_eq_true] at hs
    rw [hs] at h
    simp at h

theorem mapSome_ok {X : Except PyErr NormRow} {r : NormRow}
    (h : X.map some = .ok (some r)) : X = .ok r := by
  cases X with
  | ok v =>
    simp only [Except.map, Except.ok.injEq, Option.some.injEq] at h
    rw [h]
  | error e => simp [Except.map] at h

/-- Every row returned by a phase-3 loop comes from a successful
normalization of some input element. -/
theorem phase3Filter_mem {α : Type} {f : α → Except PyErr (Option NormRow)} :
    ∀ {xs : List α} {rows : List NormRow}, phase3Filter f xs = .ok rows →
      ∀ r ∈ rows, ∃ x ∈ xs, f x = .ok (some r) := by
  intro xs
  induction xs with
  | nil =>
    intro rows h r hr
    simp only [phase3Filter, Except.ok.injEq] at h
    subst h
    simp at hr
  | cons x rest ih =>
    intro rows h r hr
    simp only [phase3Filter] at h
    cases hx : f x with
    | ok v =>
      rw [hx] at h
      cases v with
      | some r0 =>
        cases hrest : phase3Filter f rest with
        | ok rs =>
          rw [hrest] at h
          simp only [Except.map, Except.ok.injEq] at h
          subst h
          rcases List.mem_cons.mp hr with rfl | hrr
          · exact ⟨x, List.mem_cons_self x rest, hx⟩
          · obtain ⟨y, hy, hfy⟩ := ih hrest r hrr
            exact ⟨y, List.mem_cons_of_mem x hy, hfy⟩
        | error e =>
          rw [hrest] at h
          simp [Except.map] at h
      | none =>
        obtain ⟨y, hy, hfy⟩ := ih h r hr
        exact ⟨y, List.mem_cons_of_mem x hy, hfy⟩
    | error e =>
      rw [hx] at h
      cases e with
      | valueErr msg =>
        obtain ⟨y, hy, hfy⟩ := ih h r hr
        exact ⟨y, List.mem_cons_of_mem x hy, hfy⟩
      | typeErr => simp at h
      | attributeErr => simp at h
      | transientErr => simp at h

theorem mospiEntryNorm_scope {entry : Row} {r : NormRow}
    (h : mospiEntryNorm entry = .ok (some r)) : _year_in_scope r.year := by
  unfold mospiEntryNorm at h
  dsimp only at h
  split at h
  · simp at h
  · split at h
    · simp at h
    · exact _normalized_row_scope (mapSome_ok h)

theorem datagovRowNorm_scope {row : List (String × Cell)} {r : NormRow}
    (h : datagovRowNorm row = .ok (some r)) : _year_in_scope r.year := by
  unfold datagovRowNorm at h
  dsimp only at h
  split at h
  · simp at h
  · split at h
    · simp at h
    · split at h
      · simp at h
      · split at h
        · simp at h
        · exact _normalized_row_scope (mapSome_ok h)

theorem imfEntryNorm_scope {entry : List (String × Cell)} {r : NormRow}
    (h : imfEntryNorm entry = .ok (some r)) : _year_in_scope r.year := by
  unfold imfEntryNorm at h
  dsimp only at h
  split at h
  · simp at h
  · split at h
    · simp at h
    · split at h
      · simp at h
      · split at h
        · simp at h
        · split at h
          · simp at h
          · split at h
            · simp at h
            · exact _normalized_row_scope (mapSome_ok h)

theorem dpiitRowNorm_scope {row : List (String × Cell)} {r : NormRow}
    (h : dpiitRowNorm row = .ok (some r)) : _year_in_scope r.year := by
  unfold dpiitRowNorm at h
  dsimp only at h
  split at h
  · simp at h
  · split at h
    · simp at h
    · split at h
      · simp at h
      · split at h
        · simp at h
        · exact _normalized_row_scope (mapSome_ok h)

/-- `_append_item_alias_if_needed` touches only the `items` table. -/
theorem _append_db_shape (dm : DimState) (db : DB) (i : Nat) (al : String) :
    ∃ its, (_append_item_alias_if_needed dm db i al).2 = { db with items := its } := by
  unfold _append_item_alias_if_needed
  dsimp only
  split
  · exact ⟨db.items, rfl⟩
  · split
    · exact ⟨db.items, rfl⟩
    · exact ⟨_, rfl⟩

/-- `ensure_item` touches only the `items` table and its id counter. -/
theorem ensure_item_db_shape (dm : DimState) (db : DB) (al : String) :
    ∃ its ni, (ensure_item dm db al).2.2 = { db with items := its, nextItemId := ni } := by
  unfold ensure_item
  dsimp only
  split
  · obtain ⟨its, hits⟩ := _append_db_shape dm db _ al
    exact ⟨its, db.nextItemId, by rw [hits]⟩
  · split
    · obtain ⟨its, hits⟩ := _append_db_shape dm db _ al
      exact ⟨its, db.nextItemId, by rw [hits]⟩
    · exact ⟨_, _, rfl⟩

/-- `ensure_region` touches only the `regions` table and its id counter. -/
theorem ensure_region_db_shape (dm : DimState) (db : DB) (al : String) :
    ∃ rgs nr, (ensure_region dm db al).2.2 =
      { db with regions := rgs, nextRegionId := nr } := by
  unfold ensure_region
  dsimp only
  split
  · exact ⟨db.regions, db.nextRegionId, rfl⟩
  · exact ⟨_, _, rfl⟩

/-- Every fact key whose binding changes across `ingestRowsLoop` carries
the year of one of the ingested rows. -/
theorem ingestRowsLoop_series_keys :
    ∀ {rows : List Row} {dm : DimState} {db : DB} {out : DimState × DB},
      ingestRowsLoop rows dm db = .ok out →
      ∀ k : FactKey, lookupA k out.2.series ≠ lookupA k db.series →
        ∃ r ∈ rows, k.year = r.year := by
  intro rows
  induction rows with
  | nil =>
    intro dm db out h k hk
    simp only [ingestRowsLoop, Except.ok.injEq] at h
    subst h
    exact absurd rfl hk
  | cons r rest ih =>
    intro dm db out h k hk
    unfold ingestRowsLoop at h
    dsimp only at h
    split at h
    · rename_i hdate
      set resItem := ensure_item dm db r.item_alias with hresItem
      set resRegion := ensure_region resItem.2.1 resItem.2.2 r.region_alias
        with hresRegion
      obtain ⟨its, ni, hshape₁⟩ := ensure_item_db_shape dm db r.item_alias
      obtain ⟨rgs, nr, hshape₂⟩ :=
        ensure_region_db_shape resItem.2.1 resItem.2.2 r.region_alias
      have hser : resRegion.2.2.series = db.series := by
        rw [hshape₂, hshape₁]
      by_cases hkey : k = ⟨resItem.1, resRegion.1, r.year, r.month⟩
      · exact ⟨r, List.mem_cons_self r rest, by rw [hkey]⟩
      · have hmid : lookupA k (upsertFact resRegion.2.2
            ⟨resItem.1, resRegion.1, r.year, r.month⟩ r.index_value).series =
            lookupA k db.series := by
          unfold upsertFact
          dsimp only
          rw [lookupA_setA_ne _ _ hkey, hser]
        by_cases hrec : lookupA k out.2.series =
            lookupA k (upsertFact resRegion.2.2
              ⟨resItem.1, resRegion.1, r.year, r.month⟩ r.index_value).series
        · rw [hrec, hmid] at hk
          exact absurd rfl hk
        · obtain ⟨s, hs, hys⟩ := ih h k hrec
          exact ⟨s, List.mem_cons_of_mem r hs, hys⟩
    · simp at h

/-- C9: scope enforcement — every normalized observation emitted by any
of the four adapters has a year inside the inclusive window
`ACCEPTED_YEARS = (1958, 2025)`, and a transaction over rows whose years
are all in scope changes no series-fact binding at an out-of-scope key;
hence an out-of-window observation never reaches the fact table. -/
theorem C9_scope_enforcement :
    (∀ (df : Df) rows, parse_mospi_annex df = .ok rows →
        ∀ r ∈ rows, _year_in_scope r.year) ∧
      (∀ (df : Df) rows, parse_datagov_resource df = .ok rows →
        ∀ r ∈ rows, _year_in_scope r.year) ∧
      (∀ (series : List (List (String × Cell))) rows,
        parse_imf_series series = .ok rows → ∀ r ∈ rows, _year_in_scope r.year) ∧
      (∀ (df : Df) rows, parse_dpiit_resource df = .ok rows →
        ∀ r ∈ rows, _year_in_scope r.year) ∧
      (∀ (db : DB) (file : String) (rows : List Row) (db' : DB),
        attemptTx db file rows = .ok db' →
        (∀ r ∈ rows, _year_in_scope r.year) →
        ∀ k : FactKey, lookupA k db'.series ≠ lookupA k db.series →
          _year_in_scope k.year) := by
  refine ⟨?_, ?_, ?_, ?_, ?_⟩
  · intro df rows h r hr
    unfold parse_mospi_annex at h
    split at h
    · simp at h
    · obtain ⟨x, _, hx⟩ := phase3Filter_mem h r hr
      exact mospiEntryNorm_scope hx
  · intro df rows h r hr
    unfold parse_datagov_resource at h
    dsimp only at h
    split at h
    · simp at h
    · obtain ⟨x, _, hx⟩ := phase3Filter_mem h r hr
      exact datagovRowNorm_scope hx
  · intro series rows h r hr
    obtain ⟨x, _, hx⟩ := phase3Filter_mem h r hr
    exact imfEntryNorm_scope hx
  · intro df rows h r hr
    unfold parse_dpiit_resource at h
    dsimp only at h
    split at h
    · simp at h
    · obtain ⟨x, _, hx⟩ := phase3Filter_mem h r hr
      exact dpiitRowNorm_scope hx
  · intro db file rows db' h hall k hk
    unfold attemptTx at h
    dsimp only at h
    cases hloop : ingestRowsLoop rows
        (loadDims { db with raw := db.raw ++ rows.map (mkRawRow file) })
        { db with raw := db.raw ++ rows.map (mkRawRow file) } with
    | error e => rw [hloop] at h; simp [Except.map] at h
    | ok out =>
      rw [hloop] at h
      simp only [Except.map, Except.ok.injEq] at h
      subst h
      obtain ⟨r, hr, hyr⟩ := ingestRowsLoop_series_keys hloop k (by
        simpa using hk)
      rw [hyr]
      exact hall r hr

/-- Witness for C9 at concrete inputs: a data.gov frame with one
out-of-window row yields only in-scope rows, and a one-row transaction
from an in-scope batch changes no series-fact binding at an out-of-scope
key. -/
theorem C9_scope_enforcement_witness :
    (∀ r ∈ [(⟨"Rice", "rice", "Rice", none, "Delhi", "delhi", "state",
        some ["Delhi"], 2023, 1, 140, "data_gov"⟩ : NormRow)],
      _year_in_scope r.year) ∧
      ∀ k : FactKey,
        lookupA k ((⟨[⟨1, "rice", "Rice", ["Rice"]⟩],
            [⟨1, "all-india", "All India", "unknown"⟩], 2, 2,
            [⟨"f", "Rice", "All India", 2023, 1, 140⟩],
            [(⟨1, 1, 2023, 1⟩, 140)], []⟩ : DB)).series ≠
          lookupA k ((⟨[], [], 1, 1, [], [], []⟩ : DB)).series →
          _year_in_scope k.year := by
  constructor
  · refine C9_scope_enforcement.2.1
      ⟨["item", "state", "year", "month", "value"],
        [[("item", .str "Rice"), ("state", .str "Delhi"), ("year", .int 2023),
          ("month", .str "Jan"), ("value", .real 140)],
         [("item", .str "Old"), ("state", .str "Delhi"), ("year", .int 1900),
          ("month", .str "Jan"), ("value", .real 1)]]⟩ _ (by decide)
  · exact C9_scope_enforcement.2.2.2.2
      ⟨[], [], 1, 1, [], [], []⟩ "f" [⟨"Rice", "All India", 2023, 1, 140⟩]
      ⟨[⟨1, "rice", "Rice", ["Rice"]⟩],
        [⟨1, "all-india", "All India", "unknown"⟩], 2, 2,
        [⟨"f", "Rice", "All India", 2023, 1, 140⟩],
        [(⟨1, 1, 2023, 1⟩, 140)], []⟩
      (by decide) (by decide)

/-- C7 counterexample: when the second of three batches exhausts its
retries, no further batch is processed (the trace stops at the second
batch), but the caller receives the raised error — not the per-batch
summaries of the batches completed before the failure. -/
theorem C7_counterexample :
    (run_phase3_pipeline c7Scheds (fun k => k) (fun b => b.name) c7Batches
        ⟨⟨[], [], 1, 1, [], [], []⟩, 0, [], 0, 0⟩).1 =
      .error .transientErr ∧
      (run_phase3_pipeline c7Scheds (fun k => k) (fun b => b.name) c7Batches
        ⟨⟨[], [], 1, 1, [], [], []⟩, 0, [], 0, 0⟩).2.2 =
      ["mospi", "data_gov"] := by
  refine ⟨by decide, by decide⟩

/-- The orchestrator's invocation trace is always a prefix of the batch
list: complete on success, cut at the failing batch on error. -/
theorem phase3Loop_trace (scheds : Nat → Sched) (runIds : Nat → Nat)
    (checksum : SourceBatch → String) :
    ∀ (batches : List SourceBatch) (k : Nat) (st : Eng),
      ((phase3Loop scheds runIds checksum batches k st).2.1 = none →
        (phase3Loop scheds runIds checksum batches k st).2.2.2 =
          batches.map SourceBatch.name) ∧
      (∀ e, (phase3Loop scheds runIds checksum batches k st).2.1 = some e →
        ∃ j < batches.length,
          (phase3Loop scheds runIds checksum batches k st).2.2.2 =
            (batches.take (j + 1)).map SourceBatch.name)
  | [], k, st => by simp [phase3Loop]
  | b :: rest, k, st => by
    unfold phase3Loop
    rcases hres : ingest_with_engine (scheds k) (runIds k) st b.file_path
      b.rows (checksum b) with ⟨res, st', tr⟩
    cases res with
    | ok v =>
      dsimp only
      have ih := phase3Loop_trace scheds runIds checksum rest (k + 1) st'
      constructor
      · intro hnone
        rw [List.map_cons, ih.1 hnone]
      · intro e he
        obtain ⟨j, hj, htr⟩ := ih.2 e he
        exact ⟨j + 1, by simpa using hj, by
          simp only [List.take_succ_cons, List.map_cons, htr]⟩
    | error e =>
      dsimp only
      refine ⟨by simp, ?_⟩
      intro e2 _
      exact ⟨0, by simp, by simp⟩

/-- C7 amended: an unrecoverable batch error aborts all remaining batches
and re-raises to the caller; the summaries accumulated before the failure
(including the failed batch's own summary) stay internal to
`run_phase3_pipeline` and the caller receives only the exception.  On a
clean run every batch is processed and the full summary is returned. -/
theorem C7_fatal_abort (scheds : Nat → Sched) (runIds : Nat → Nat)
    (checksum : SourceBatch → String) (batches : List SourceBatch) (st : Eng) :
    (∀ e, (phase3Loop scheds runIds checksum batches 0 st).2.1 = some e →
        (run_phase3_pipeline scheds runIds checksum batches st).1 = .error e ∧
          ∃ j < batches.length,
            (run_phase3_pipeline scheds runIds checksum batches st).2.2 =
              (batches.take (j + 1)).map SourceBatch.name) ∧
      ((phase3Loop scheds runIds checksum batches 0 st).2.1 = none →
        (run_phase3_pipeline scheds runIds checksum batches st).2.2 =
            batches.map SourceBatch.name ∧
          ∃ s, (run_phase3_pipeline scheds runIds checksum batches st).1 =
            .ok s) := by
  constructor
  · intro e he
    unfold run_phase3_pipeline
    dsimp only
    rw [he]
    exact ⟨rfl, (phase3Loop_trace scheds runIds checksum batches 0 st).2 e he⟩
  · intro hnone
    unfold run_phase3_pipeline
    dsimp only
    rw [hnone]
    exact ⟨(phase3Loop_trace scheds runIds checksum batches 0 st).1 hnone,
      ⟨_, rfl⟩⟩

/-- Witness for C7 amended at the concrete three-batch scenario. -/
theorem C7_fatal_abort_witness :
    (run_phase3_pipeline c7Scheds (fun k => k) (fun b => b.name) c7Batches
        ⟨⟨[], [], 1, 1, [], [], []⟩, 0, [], 0, 0⟩).1 =
      .error .transientErr ∧
      ∃ j < c7Batches.length,
        (run_phase3_pipeline c7Scheds (fun k => k) (fun b => b.name) c7Batches
          ⟨⟨[], [], 1, 1, [], [], []⟩, 0, [], 0, 0⟩).2.2 =
          (c7Batches.take (j + 1)).map SourceBatch.name :=
  (C7_fatal_abort c7Scheds (fun k => k) (fun b => b.name) c7Batches
    ⟨⟨[], [], 1, 1, [], [], []⟩, 0, [], 0, 0⟩).1 .transientErr (by decide)

/-! ## Claims C3 and C4: retry bound and run-record postcondition -/

/-- The per-row loop never fails on date-valid rows. -/
theorem ingestRowsLoop_ok :
    ∀ {rows : List Row} (dm : DimState) (db : DB),
      (∀ r ∈ rows, dateOk r.year r.month) →
      ∃ out, ingestRowsLoop rows dm db = .ok out
  | [], dm, db, _ => ⟨(dm, db), rfl⟩
  | r :: rest, dm, db, h => by
    unfold ingestRowsLoop
    dsimp only
    rw [if_pos (h r (List.mem_cons_self r rest))]
    exact ingestRowsLoop_ok _ _ (fun s hs => h s (List.mem_cons_of_mem r hs))

/-- The per-row loop leaves `raw` and `runs` untouched. -/
theorem ingestRowsLoop_preserves :
    ∀ {rows : List Row} {dm : DimState} {db : DB} {out : DimState × DB},
      ingestRowsLoop rows dm db = .ok out →
      out.2.runs = db.runs ∧ out.2.raw = db.raw := by
  intro rows
  induction rows with
  | nil =>
    intro dm db out h
    simp only [ingestRowsLoop, Except.ok.injEq] at h
    subst h
    exact ⟨rfl, rfl⟩
  | cons r rest ih =>
    intro dm db out h
    unfold ingestRowsLoop at h
    dsimp only at h
    split at h
    · obtain ⟨hruns, hraw⟩ := ih h
      obtain ⟨its, ni, hshape₁⟩ := ensure_item_db_shape dm db r.item_alias
      obtain ⟨rgs, nr, hshape₂⟩ := ensure_region_db_shape
        (ensure_item dm db r.item_alias).2.1
        (ensure_item dm db r.item_alias).2.2 r.region_alias
      constructor
      · rw [hruns]
        show ({ (ensure_region _ _ _).2.2 with
          series := _ } : DB).runs = db.runs
        rw [hshape₂, hshape₁]
      · rw [hraw]
        show ({ (ensure_region _ _ _).2.2 with
          series := _ } : DB).raw = db.raw
        rw [hshape₂, hshape₁]
    · simp at h

/-- A transaction attempt over date-valid rows succeeds; it appends the
payload to the raw audit table and leaves the run table untouched. -/
theorem attemptTx_ok (db : DB) (file : String) (rows : List Row)
    (h : ∀ r ∈ rows, dateOk r.year r.month) :
    ∃ db', attemptTx db file rows = .ok db' ∧ db'.runs = db.runs ∧
      db'.raw = db.raw ++ rows.map (mkRawRow file) := by
  obtain ⟨out, hout⟩ := ingestRowsLoop_ok
    (loadDims { db with raw := db.raw ++ rows.map (mkRawRow file) })
    { db with raw := db.raw ++ rows.map (mkRawRow file) } h
  obtain ⟨hruns, hraw⟩ := ingestRowsLoop_preserves hout
  refine ⟨out.2, ?_, hruns, hraw⟩
  unfold attemptTx
  dsimp only
  rw [hout]
  rfl

/-- Either way, `attemptTx` never touches `runs`. -/
theorem attemptTx_runs {db db' : DB} {file : String} {rows : List Row}
    (h : attemptTx db file rows = .ok db') : db'.runs = db.runs := by
  unfold attemptTx at h
  dsimp only at h
  cases hloop : ingestRowsLoop rows
      (loadDims { db with raw := db.raw ++ rows.map (mkRawRow file) })
      { db with raw := db.raw ++ rows.map (mkRawRow file) } with
  | error e => rw [hloop] at h; simp [Except.map] at h
  | ok out =>
    rw [hloop] at h
    simp only [Except.map, Except.ok.injEq] at h
    subst h
    exact (ingestRowsLoop_preserves hloop).1

/-- The retry loop never reads `runInsertFail`. -/
theorem ingestLoop_txOnly (f : Nat → Bool) (b b' : Bool) (file : String)
    (rows : List Row) :
    ∀ (fuel attempt : Nat) (st : Eng) (logs : List String),
      ingestLoop ⟨f, b⟩ file rows attempt fuel st logs =
        ingestLoop ⟨f, b'⟩ file rows attempt fuel st logs
  | 0, attempt, st, logs => rfl
  | fuel + 1, attempt, st, logs => by
    unfold ingestLoop
    dsimp only
    split
    · split
      · rfl
      · exact ingestLoop_txOnly f b b' file rows fuel (attempt + 1) _ _
    · rfl

/-- Across the retry loop the run table, the insert-attempt counter and
the logger-error counter are untouched, and the clock never goes back. -/
theorem ingestLoop_state (sched : Sched) (file : String) (rows : List Row) :
    ∀ (fuel attempt : Nat) (st : Eng) (logs : List String),
      (ingestLoop sched file rows attempt fuel st logs).2.1.db.runs = st.db.runs ∧
        (ingestLoop sched file rows attempt fuel st logs).2.1.runInsertAttempts =
          st.runInsertAttempts ∧
        (ingestLoop sched file rows attempt fuel st logs).2.1.loggerErrors =
          st.loggerErrors ∧
        st.clock ≤ (ingestLoop sched file rows attempt fuel st logs).2.1.clock
  | 0, attempt, st, logs => ⟨rfl, rfl, rfl, Nat.le_refl _⟩
  | fuel + 1, attempt, st, logs => by
    unfold ingestLoop
    dsimp only [appendLog]
    split
    · split
      · exact ⟨rfl, rfl, rfl, by dsimp only; omega⟩
      · refine ⟨(ingestLoop_state sched file rows fuel (attempt + 1) _ _).1,
          (ingestLoop_state sched file rows fuel (attempt + 1) _ _).2.1,
          (ingestLoop_state sched file rows fuel (attempt + 1) _ _).2.2.1, ?_⟩
        refine le_trans ?_
          (ingestLoop_state sched file rows fuel (attempt + 1) _ _).2.2.2
        dsimp only
        omega
    · split
      · rename_i db' hdb'
        refine ⟨?_, rfl, rfl, by dsimp only; omega⟩
        dsimp only
        exact attemptTx_runs hdb'
      · exact ⟨rfl, rfl, rfl, by dsimp only; omega⟩

theorem pyTake_length_le (s : String) (n : Nat) :
    (pyTake s n).data.length ≤ n := by
  simp [pyTake]

theorem ingestLoop_state_eq {sched : Sched} {file : String} {rows : List Row}
    {fuel attempt : Nat} {st : Eng} {logs : List String}
    {out : (Except PyErr DB) × Eng × List String}
    (h : ingestLoop sched file rows attempt fuel st logs = out) :
    out.2.1.db.runs = st.db.runs ∧
      out.2.1.runInsertAttempts = st.runInsertAttempts ∧
      out.2.1.loggerErrors = st.loggerErrors ∧ st.clock ≤ out.2.1.clock :=
  h ▸ ingestLoop_state sched file rows fuel attempt st logs

/-- C4: run-record postcondition — every `ingest_with_engine` call
attempts exactly one run-record insert; when that insert succeeds the
record carries the call's start clock, a strictly later finish clock, the
supplied checksum, the final status matching the outcome, and the
transcript truncated to `MAX_LOG_CHARS`; when the insert fails, one
`logger.error` is emitted, nothing is written, there is no second insert
attempt, and the original outcome is unchanged. -/
theorem C4_run_record (sched : Sched) (runId : Nat) (st : Eng) (file : String)
    (rows : List Row) (checksum : String) :
    (ingest_with_engine sched runId st file rows checksum).2.1.runInsertAttempts =
        st.runInsertAttempts + 1 ∧
      (sched.runInsertFail = false →
        ∃ r : RunRec,
          (ingest_with_engine sched runId st file rows checksum).2.1.db.runs =
              st.db.runs ++ [r] ∧
            r.run_id = runId ∧ r.started_at = st.clock ∧
            r.checksum = checksum ∧
            r.log = pyTake (String.intercalate "\n"
              (ingest_with_engine sched runId st file rows checksum).2.2)
              MAX_LOG_CHARS ∧
            r.log.data.length ≤ MAX_LOG_CHARS ∧
            r.started_at < r.finished_at ∧
            (∀ res, (ingest_with_engine sched runId st file rows checksum).1 =
              .ok res → r.status = "success") ∧
            (∀ e, (ingest_with_engine sched runId st file rows checksum).1 =
              .error e → r.status = "failed")) ∧
      (sched.runInsertFail = true →
        (ingest_with_engine sched runId st file rows checksum).2.1.db.runs =
            st.db.runs ∧
          (ingest_with_engine sched runId st file rows checksum).2.1.loggerErrors =
            st.loggerErrors + 1 ∧
          (ingest_with_engine ⟨sched.txFail, false⟩ runId st file rows
            checksum).1 =
            (ingest_with_engine sched runId st file rows checksum).1) := by
  unfold ingest_with_engine
  dsimp only [appendLog]
  split
  · rename_i a st1 logs1 heq
    have hst := ingestLoop_state_eq heq
    dsimp only at hst
    have heqf := Eq.trans (Eq.symm (ingestLoop_txOnly sched.txFail
      sched.runInsertFail false file rows MAX_RETRIES 1 _ _)) heq
    rw [heqf]
    dsimp only [record_run, appendLog]
    refine ⟨?_, ?_, ?_⟩
    · rw [apply_ite (fun s : Eng => s.runInsertAttempts)]
      dsimp only
      rw [ite_self]
      omega
    · intro hrf
      rw [hrf]
      rw [if_neg (by simp)]
      exact ⟨_, by dsimp only; rw [hst.1], rfl, rfl, rfl, rfl,
        pyTake_length_le _ _, by dsimp only; omega, fun _ _ => rfl,
        fun e he => by simp at he⟩
    · intro hrf
      rw [hrf]
      rw [if_pos (by simp)]
      exact ⟨by dsimp only; rw [hst.1], by dsimp only; omega, rfl⟩
  · rename_i e st1 logs1 heq
    have hst := ingestLoop_state_eq heq
    dsimp only at hst
    have heqf := Eq.trans (Eq.symm (ingestLoop_txOnly sched.txFail
      sched.runInsertFail false file rows MAX_RETRIES 1 _ _)) heq
    rw [heqf]
    dsimp only [record_run, appendLog]
    refine ⟨?_, ?_, ?_⟩
    · rw [apply_ite (fun s : Eng => s.runInsertAttempts)]
      dsimp only
      rw [ite_self]
      omega
    · intro hrf
      rw [hrf]
      rw [if_neg (by simp)]
      exact ⟨_, by dsimp only; rw [hst.1], rfl, rfl, rfl, rfl,
        pyTake_length_le _ _, by dsimp only; omega, fun res hres => by simp at hres,
        fun _ _ => rfl⟩
    · intro hrf
      rw [hrf]
      rw [if_pos (by simp)]
      exact ⟨by dsimp only; rw [hst.1], by dsimp only; omega, rfl⟩

/-- Witness for C4 at a concrete call (insert succeeding and failing). -/
theorem C4_run_record_witness :
    (ingest_with_engine ⟨fun _ => false, false⟩ 7
        ⟨⟨[], [], 1, 1, [], [], []⟩, 0, [], 0, 0⟩ "f"
        [⟨"Rice", "All India", 2023, 1, 140⟩] "sum").2.1.runInsertAttempts =
      0 + 1 ∧
      (ingest_with_engine ⟨fun _ => false, true⟩ 7
          ⟨⟨[], [], 1, 1, [], [], []⟩, 0, [], 0, 0⟩ "f"
          [⟨"Rice", "All India", 2023, 1, 140⟩] "sum").2.1.loggerErrors =
        0 + 1 :=
  ⟨(C4_run_record ⟨fun _ => false, false⟩ 7
      ⟨⟨[], [], 1, 1, [], [], []⟩, 0, [], 0, 0⟩ "f"
      [⟨"Rice", "All India", 2023, 1, 140⟩] "sum").1,
   ((C4_run_record ⟨fun _ => false, true⟩ 7
      ⟨⟨[], [], 1, 1, [], [], []⟩, 0, [], 0, 0⟩ "f"
      [⟨"Rice", "All India", 2023, 1, 140⟩] "sum").2.2 rfl).2.1⟩

/-- C3: retry bound — ingest against a storage layer that fails
transiently on attempts `1..K`.  If `K < MAX_RETRIES` (= 3) the call
completes normally with exactly one "success" run record appended,
having waited `min(RETRY_BASE_DELAY_SECONDS · attempt, 10)` seconds
before each retry; if `K ≥ MAX_RETRIES` the final transient error is
re-raised, exactly one "failed" run record is appended, and the two
waits were 2 and 4 seconds. -/
theorem C3_retry_bound (K runId : Nat) (st : Eng) (file : String)
    (rows : List Row) (checksum : String)
    (hrows : ∀ r ∈ rows, dateOk r.year r.month) :
    (K < MAX_RETRIES →
      (ingest_with_engine ⟨fun a => decide (a ≤ K), false⟩ runId st file rows
          checksum).1 = .ok ⟨runId, "success", rows.length⟩ ∧
        (∃ r : RunRec,
          (ingest_with_engine ⟨fun a => decide (a ≤ K), false⟩ runId st file
            rows checksum).2.1.db.runs = st.db.runs ++ [r] ∧
            r.status = "success" ∧ r.checksum = checksum) ∧
        (ingest_with_engine ⟨fun a => decide (a ≤ K), false⟩ runId st file rows
          checksum).2.1.sleeps = st.sleeps ++
            (List.range K).map
              (fun a => min (RETRY_BASE_DELAY_SECONDS * (a + 1)) 10)) ∧
    (MAX_RETRIES ≤ K →
      (ingest_with_engine ⟨fun a => decide (a ≤ K), false⟩ runId st file rows
          checksum).1 = .error .transientErr ∧
        (∃ r : RunRec,
          (ingest_with_engine ⟨fun a => decide (a ≤ K), false⟩ runId st file
            rows checksum).2.1.db.runs = st.db.runs ++ [r] ∧
            r.status = "failed" ∧ r.checksum = checksum) ∧
        (ingest_with_engine ⟨fun a => decide (a ≤ K), false⟩ runId st file rows
          checksum).2.1.sleeps = st.sleeps ++ [2, 4]) := by
  obtain ⟨db', hdb', hruns', hraw'⟩ := attemptTx_ok st.db file rows hrows
  constructor
  · intro hK
    have hK3 : K < 3 := hK
    interval_cases K
    · unfold ingest_with_engine
      rw [show MAX_RETRIES = 0 + 1 + 1 + 1 from rfl]
      dsimp only [appendLog]
      unfold ingestLoop
      try simp only [ingestLoop]
      try dsimp only [appendLog]
      rw [if_neg (by decide), hdb']
      dsimp only [record_run, appendLog]
      rw [if_neg (by decide)]
      refine ⟨rfl, ?_, ?_⟩
      · try dsimp only
        rw [hruns']
        exact ⟨_, rfl, rfl, rfl⟩
      · try dsimp only
        simp
    · unfold ingest_with_engine
      rw [show MAX_RETRIES = 0 + 1 + 1 + 1 from rfl]
      dsimp only [appendLog]
      unfold ingestLoop
      try simp only [ingestLoop]
      try dsimp only [appendLog]
      rw [if_pos (by decide), if_neg (by decide)]
      try dsimp only [appendLog]
      rw [if_neg (by decide), hdb']
      dsimp only [record_run, appendLog]
      rw [if_neg (by decide)]
      refine ⟨rfl, ?_, ?_⟩
      · try dsimp only
        rw [hruns']
        exact ⟨_, rfl, rfl, rfl⟩
      · try dsimp only
        simp [RETRY_BASE_DELAY_SECONDS]
        try decide
    · unfold ingest_with_engine
      rw [show MAX_RETRIES = 0 + 1 + 1 + 1 from rfl]
      dsimp only [appendLog]
      unfold ingestLoop
      try simp only [ingestLoop]
      try dsimp only [appendLog]
      rw [if_pos (by decide), if_neg (by decide)]
      try dsimp only [appendLog]
      rw [if_pos (by decide), if_neg (by decide)]
      try dsimp only [appendLog]
      rw [if_neg (by decide), hdb']
      dsimp only [record_run, appendLog]
      rw [if_neg (by decide)]
      refine ⟨rfl, ?_, ?_⟩
      · try dsimp only
        rw [hruns']
        exact ⟨_, rfl, rfl, rfl⟩
      · try dsimp only
        simp [RETRY_BASE_DELAY_SECONDS]
        try decide
  · intro hK
    have hK3 : 3 ≤ K := hK
    unfold ingest_with_engine
    rw [show MAX_RETRIES = 0 + 1 + 1 + 1 from rfl]
    dsimp only [appendLog]
    unfold ingestLoop
    try simp only [ingestLoop]
    try dsimp only [appendLog]
    rw [if_pos (show decide (1 ≤ K) = true by
        simp only [decide_eq_true_eq]
        omega),
      if_neg (by decide)]
    try dsimp only [appendLog]
    rw [if_pos (show decide (1 + 1 ≤ K) = true by
        simp only [decide_eq_true_eq]
        omega),
      if_neg (by decide)]
    try dsimp only [appendLog]
    rw [if_pos (show decide (1 + 1 + 1 ≤ K) = true by
        simp only [decide_eq_true_eq]
        omega),
      if_pos (by decide)]
    dsimp only [record_run, appendLog]
    rw [if_neg (by decide)]
    refine ⟨rfl, ?_, ?_⟩
    · try dsimp only
      exact ⟨_, rfl, rfl, rfl⟩
    · try dsimp only
      simp [RETRY_BASE_DELAY_SECONDS]
      try decide

/-- Witness for C3 at `K = 1` (one transient failure, then success) and
`K = 3` (retries exhausted). -/
theorem C3_retry_bound_witness :
    ((ingest_with_engine ⟨fun a => decide (a ≤ 1), false⟩ 7
        ⟨⟨[], [], 1, 1, [], [], []⟩, 0, [], 0, 0⟩ "f"
        [⟨"Rice", "All India", 2023, 1, 140⟩] "sum").1 =
      .ok ⟨7, "success", [(⟨"Rice", "All India", 2023, 1, 140⟩ : Row)].length⟩) ∧
      (ingest_with_engine ⟨fun a => decide (a ≤ 3), false⟩ 7
          ⟨⟨[], [], 1, 1, [], [], []⟩, 0, [], 0, 0⟩ "f"
          [⟨"Rice", "All India", 2023, 1, 140⟩] "sum").1 =
        .error .transientErr ∧
      (ingest_with_engine ⟨fun a => decide (a ≤ 3), false⟩ 7
          ⟨⟨[], [], 1, 1, [], [], []⟩, 0, [], 0, 0⟩ "f"
          [⟨"Rice", "All India", 2023, 1, 140⟩] "sum").2.1.sleeps =
        ([] : List Nat) ++ [2, 4] :=
  ⟨((C3_retry_bound 1 7 ⟨⟨[], [], 1, 1, [], [], []⟩, 0, [], 0, 0⟩ "f"
      [⟨"Rice", "All India", 2023, 1, 140⟩] "sum" (by decide)).1
      (by decide)).1,
   ((C3_retry_bound 3 7 ⟨⟨[], [], 1, 1, [], [], []⟩, 0, [], 0, 0⟩ "f"
      [⟨"Rice", "All India", 2023, 1, 140⟩] "sum" (by decide)).2
      (by decide)).1,
   ((C3_retry_bound 3 7 ⟨⟨[], [], 1, 1, [], [], []⟩, 0, [], 0, 0⟩ "f"
      [⟨"Rice", "All India", 2023, 1, 140⟩] "sum" (by decide)).2
      (by decide)).2.2⟩

/-! ## Claim C2: alias convergence -/

theorem normalizeAlias_slug_congr {al₁ al₂ : String}
    (h : normalizeAlias al₁ = normalizeAlias al₂) :
    normalizeAlias (slugify al₁) = normalizeAlias (slugify al₂) := by
  by_cases h₁ : slugify al₁ = ""
  · by_cases h₂ : slugify al₂ = ""
    · rw [h₁, h₂]
    · exfalso
      rw [normalizeAlias_of_empty h₁, normalizeAlias_of_ne h₂] at h
      have hz : slugify (slugify al₂) = "" := by
        rw [← h]
        exact fallback_slug_empty h₁
      rw [slugify_idempotent] at hz
      exact h₂ hz
  · by_cases h₂ : slugify al₂ = ""
    · exfalso
      rw [normalizeAlias_of_ne h₁, normalizeAlias_of_empty h₂] at h
      have hz : slugify (slugify al₁) = "" := by
        rw [h]
        exact fallback_slug_empty h₂
      rw [slugify_idempotent] at hz
      exact h₁ hz
    · rw [normalizeAlias_of_ne h₁, normalizeAlias_of_ne h₂] at h
      rw [h]

theorem append_alias_state (dm : DimState) (db : DB) (i : Nat) (al : String) :
    _append_item_alias_if_needed dm db i al = (dm, db) ∨
    ((_append_item_alias_if_needed dm db i al).1.item_alias_index
        = setA (normalizeAlias al) i dm.item_alias_index ∧
      (_append_item_alias_if_needed dm db i al).2.items.length
        = db.items.length) := by
  unfold _append_item_alias_if_needed
  dsimp only
  split
  · exact Or.inl rfl
  · split
    · exact Or.inl rfl
    · refine Or.inr ⟨rfl, ?_⟩
      dsimp only [_register_item_alias]
      simp

theorem append_items_length (dm : DimState) (db : DB) (i : Nat) (al : String) :
    (_append_item_alias_if_needed dm db i al).2.items.length
      = db.items.length := by
  unfold _append_item_alias_if_needed
  dsimp only
  split
  · rfl
  · split
    · rfl
    · simp

theorem ensure_item_hit {dm : DimState} {al : String} {i : Nat} (db : DB)
    (h : lookupA (normalizeAlias al) dm.item_alias_index = some i) :
    ensure_item dm db al = (i, _append_item_alias_if_needed dm db i al) := by
  unfold ensure_item
  dsimp only
  rw [h]

theorem ensure_item_hit2 {dm : DimState} {al : String} {i : Nat} (db : DB)
    (h1 : lookupA (normalizeAlias al) dm.item_alias_index = none)
    (h2 : lookupA (normalizeAlias (slugify al)) dm.item_alias_index = some i) :
    ensure_item dm db al = (i, _append_item_alias_if_needed dm db i al) := by
  unfold ensure_item
  dsimp only
  rw [h1, h2]

theorem ensure_item_miss {dm : DimState} {db : DB} {al : String}
    (h1 : lookupA (normalizeAlias al) dm.item_alias_index = none)
    (h2 : lookupA (normalizeAlias (slugify al)) dm.item_alias_index = none) :
    (ensure_item dm db al).1 = db.nextItemId ∧
    (ensure_item dm db al).2.1.item_alias_index
      = setA (normalizeAlias al) db.nextItemId
          (setA (normalizeAlias (_unique_item_slug (slugify al) dm.slug_index))
            db.nextItemId dm.item_alias_index) ∧
    (ensure_item dm db al).2.2.items.length = db.items.length + 1 := by
  unfold ensure_item
  dsimp only
  rw [h1, h2]
  dsimp only [_register_item_alias]
  refine ⟨rfl, rfl, by simp⟩

/-- C2 counterexample: the spec's normalization rule collapses the
underscore in "a_b" to a hyphen, making "a_b" and "a b" equivalent, but
the code's `slugify` deletes the underscore, so the two aliases carry
different tokens and `ensure_item` creates two distinct item records for
them. -/
theorem C2_counterexample :
    specNormalize "a_b" = specNormalize "a b" ∧
    normalizeAlias "a_b" ≠ normalizeAlias "a b" ∧
    (ensure_item emptyDim ⟨[], [], 1, 1, [], [], []⟩ "a_b").1 = 1 ∧
    (ensure_item (ensure_item emptyDim ⟨[], [], 1, 1, [], [], []⟩ "a_b").2.1
      (ensure_item emptyDim ⟨[], [], 1, 1, [], [], []⟩ "a_b").2.2 "a b").1 = 2 ∧
    (ensure_item (ensure_item emptyDim ⟨[], [], 1, 1, [], [], []⟩ "a_b").2.1
      (ensure_item emptyDim ⟨[], [], 1, 1, [], [], []⟩ "a_b").2.2
      "a b").2.2.items.length = 2 := by
  refine ⟨rfl, by decide, ?_, ?_, ?_⟩ <;> decide

/-- C2 amended: alias convergence holds for the code's own normalization
(`slugify`, falling back to `strip().lower()` on an empty slug): two
aliases with identical `normalizeAlias` tokens resolve via `ensure_item`
to the same item id, and re-resolving the second inserts no new item
record. -/
theorem C2_alias_convergence (dm : DimState) (db : DB) (al₁ al₂ : String)
    (h : normalizeAlias al₁ = normalizeAlias al₂) :
    (ensure_item (ensure_item dm db al₁).2.1 (ensure_item dm db al₁).2.2
        al₂).1 = (ensure_item dm db al₁).1 ∧
    (ensure_item (ensure_item dm db al₁).2.1 (ensure_item dm db al₁).2.2
        al₂).2.2.items.length = (ensure_item dm db al₁).2.2.items.length := by
  cases hA : lookupA (normalizeAlias al₁) dm.item_alias_index with
  | some i =>
    have e₁ := ensure_item_hit db hA
    rcases append_alias_state dm db i al₁ with hsame | ⟨hidx, hlen⟩
    · have hA₂ : lookupA (normalizeAlias al₂) dm.item_alias_index = some i := by
        rw [← h]
        exact hA
      rw [e₁, hsame]
      rw [ensure_item_hit db hA₂]
      exact ⟨rfl, append_items_length dm db i al₂⟩
    · have hA₂ : lookupA (normalizeAlias al₂)
          (_append_item_alias_if_needed dm db i al₁).1.item_alias_index
          = some i := by
        rw [hidx, ← h]
        exact lookupA_setA_self _ _ _
      rw [e₁]
      rw [ensure_item_hit (_append_item_alias_if_needed dm db i al₁).2 hA₂]
      exact ⟨rfl, append_items_length _ _ i al₂⟩
  | none =>
    cases hB : lookupA (normalizeAlias (slugify al₁)) dm.item_alias_index with
    | some i =>
      have e₁ := ensure_item_hit2 db hA hB
      rcases append_alias_state dm db i al₁ with hsame | ⟨hidx, hlen⟩
      · have hA₂ : lookupA (normalizeAlias al₂) dm.item_alias_index = none := by
          rw [← h]
          exact hA
        have hB₂ : lookupA (normalizeAlias (slugify al₂))
            dm.item_alias_index = some i := by
          rw [← normalizeAlias_slug_congr h]
          exact hB
        rw [e₁, hsame]
        rw [ensure_item_hit2 db hA₂ hB₂]
        exact ⟨rfl, append_items_length dm db i al₂⟩
      · have hA₂ : lookupA (normalizeAlias al₂)
            (_append_item_alias_if_needed dm db i al₁).1.item_alias_index
            = some i := by
          rw [hidx, ← h]
          exact lookupA_setA_self _ _ _
        rw [e₁]
        rw [ensure_item_hit (_append_item_alias_if_needed dm db i al₁).2 hA₂]
        exact ⟨rfl, append_items_length _ _ i al₂⟩
    | none =>
      obtain ⟨hid, hidx, hlen⟩ := ensure_item_miss hA hB
      have hA₂ : lookupA (normalizeAlias al₂)
          (ensure_item dm db al₁).2.1.item_alias_index
          = some db.nextItemId := by
        rw [hidx, ← h]
        exact lookupA_setA_self _ _ _
      rw [ensure_item_hit (ensure_item dm db al₁).2.2 hA₂]
      exact ⟨hid.symm, append_items_length _ _ _ al₂⟩

/-- Witness for C2: "Rice" and "  RICE " share the token "rice"; the
second resolution returns the first's id and adds no item record. -/
theorem C2_alias_convergence_witness :
    normalizeAlias "Rice" = normalizeAlias "  RICE " ∧
    (ensure_item (ensure_item emptyDim ⟨[], [], 1, 1, [], [], []⟩ "Rice").2.1
        (ensure_item emptyDim ⟨[], [], 1, 1, [], [], []⟩ "Rice").2.2
        "  RICE ").1
      = (ensure_item emptyDim ⟨[], [], 1, 1, [], [], []⟩ "Rice").1 ∧
    (ensure_item (ensure_item emptyDim ⟨[], [], 1, 1, [], [], []⟩ "Rice").2.1
        (ensure_item emptyDim ⟨[], [], 1, 1, [], [], []⟩ "Rice").2.2
        "  RICE ").2.2.items.length
      = (ensure_item emptyDim ⟨[], [], 1, 1, [], [], []⟩ "Rice").2.2.items.length :=
  ⟨by decide,
   (C2_alias_convergence emptyDim ⟨[], [], 1, 1, [], [], []⟩ "Rice" "  RICE "
     (by decide)).1,
   (C2_alias_convergence emptyDim ⟨[], [], 1, 1, [], [], []⟩ "Rice" "  RICE "
     (by decide)).2⟩

/-! ## Claim C8: slug disambiguation -/

theorem data_append (a b : String) : (a ++ b).data = a.data ++ b.data := rfl

theorem natRepr_data_ne_nil (n : Nat) : (natRepr n).data ≠ [] := by
  intro hnil
  exact natRepr_ne_empty n (String.ext hnil)

theorem slugCand_inj {s : String} (hs : s ≠ "") {j k : Nat}
    (h : slugCand s j = slugCand s k) : j = k := by
  unfold slugCand at h
  by_cases hj : j = 0
  · by_cases hk : k = 0
    · omega
    · exfalso
      rw [if_pos hj, if_neg hk] at h
      have hd := congrArg String.data h
      rw [data_append, data_append] at hd
      have hlen := congrArg List.length hd
      simp only [List.length_append] at hlen
      have hpos : 0 < (natRepr (k + 1)).data.length :=
        List.length_pos.mpr (natRepr_data_ne_nil (k + 1))
      have hone : ("-" : String).data.length = 1 := rfl
      omega
  · by_cases hk : k = 0
    · exfalso
      rw [if_neg hj, if_pos hk] at h
      have hd := congrArg String.data h
      rw [data_append, data_append] at hd
      have hlen := congrArg List.length hd
      simp only [List.length_append] at hlen
      have hpos : 0 < (natRepr (j + 1)).data.length :=
        List.length_pos.mpr (natRepr_data_ne_nil (j + 1))
      have hone : ("-" : String).data.length = 1 := rfl
      omega
    · rw [if_neg hj, if_neg hk] at h
      have hd := congrArg String.data h
      rw [data_append, data_append, data_append, data_append] at hd
      have hrepr : (natRepr (j + 1)).data = (natRepr (k + 1)).data :=
        List.append_cancel_left hd
      have := natRepr_injective (String.ext hrepr)
      omega

theorem searchFree_eq {s : String} {idx : List (String × Nat)} {k : Nat}
    (hk : lookupA (slugCand s k) idx = none)
    (hlt : ∀ m, m < k → (lookupA (slugCand s m) idx).isSome) :
    ∀ (fuel j : Nat), j ≤ k → k < j + fuel → searchFree s idx j fuel = k := by
  intro fuel
  induction fuel with
  | zero =>
    intro j hj hkf
    omega
  | succ f ih =>
    intro j hj hkf
    unfold searchFree
    by_cases hjk : j = k
    · subst hjk
      rw [hk]
      simp
    · have hjlt : j < k := lt_of_le_of_ne hj hjk
      have hsome := hlt j hjlt
      cases hcase : lookupA (slugCand s j) idx with
      | none => rw [hcase] at hsome; simp at hsome
      | some v =>
        rw [if_neg (by simp)]
        exact ih (j + 1) (by omega) (by omega)

theorem ensure_item_miss_full {dm : DimState} (db : DB) {al : String}
    (h1 : lookupA (normalizeAlias al) dm.item_alias_index = none)
    (h2 : lookupA (normalizeAlias (slugify al)) dm.item_alias_index = none) :
    (ensure_item dm db al).2.2.items
      = db.items ++ [⟨db.nextItemId,
          _unique_item_slug (slugify al) dm.slug_index, al, [al]⟩] ∧
    (ensure_item dm db al).2.1.slug_index
      = setA (_unique_item_slug (slugify al) dm.slug_index)
          db.nextItemId dm.slug_index := by
  unfold ensure_item
  dsimp only
  rw [h1, h2]
  dsimp only [_register_item_alias]
  exact ⟨rfl, rfl⟩

theorem ensureChain_creation (bp : String) (hbp : bp ≠ "") :
    ∀ (labels : List String) (k : Nat) (dm : DimState) (db : DB),
    (∀ al ∈ labels, (if slugify al = "" then "item" else slugify al) = bp) →
    creationPath labels dm db = true →
    (∀ j, k ≤ j → lookupA (slugCand bp j) dm.slug_index = none) →
    (∀ j, j < k → (lookupA (slugCand bp j) dm.slug_index).isSome) →
    (keysA dm.slug_index).Nodup →
    k ≤ dm.slug_index.length →
    (ensureChain labels dm db).2.items.map (fun r => r.slug)
        = db.items.map (fun r => r.slug)
          ++ (List.range labels.length).map (fun j => slugCand bp (k + j)) ∧
    (keysA (ensureChain labels dm db).1.slug_index).Nodup := by
  intro labels
  induction labels with
  | nil =>
    intro k dm db hbase hpath hge hlt hnd hk
    exact ⟨by simp [ensureChain], hnd⟩
  | cons al rest ih =>
    intro k dm db hbase hpath hge hlt hnd hk
    simp only [creationPath, Bool.and_eq_true, Option.isNone_iff_eq_none]
      at hpath
    obtain ⟨⟨h1, h2⟩, hrest⟩ := hpath
    obtain ⟨hitems, hslug⟩ := ensure_item_miss_full db h1 h2
    have hbal := hbase al (List.mem_cons_self al rest)
    have hsr : _unique_item_slug (slugify al) dm.slug_index
        = slugCand bp k := by
      unfold _unique_item_slug
      dsimp only
      rw [hbal]
      rw [searchFree_eq (hge k (Nat.le_refl k)) (fun m hm => hlt m hm)
        (dm.slug_index.length + 1) 0 (Nat.zero_le k) (by omega)]
    rw [hsr] at hitems hslug
    have hfresh := hge k (Nat.le_refl k)
    have hne : ∀ j, j ≠ k → slugCand bp j ≠ slugCand bp k := by
      intro j hjk heq
      exact hjk (slugCand_inj hbp heq)
    have hge' : ∀ j, k + 1 ≤ j →
        lookupA (slugCand bp j) (ensure_item dm db al).2.1.slug_index
          = none := by
      intro j hj
      rw [hslug, lookupA_setA_ne _ _ (hne j (by omega))]
      exact hge j (by omega)
    have hlt' : ∀ j, j < k + 1 →
        (lookupA (slugCand bp j) (ensure_item dm db al).2.1.slug_index).isSome := by
      intro j hj
      by_cases hjk : j = k
      · subst hjk
        rw [hslug, lookupA_setA_self]
        rfl
      · rw [hslug, lookupA_setA_ne _ _ (hne j hjk)]
        exact hlt j (by omega)
    have hkeys : keysA (ensure_item dm db al).2.1.slug_index
        = keysA dm.slug_index ++ [slugCand bp k] := by
      rw [hslug]
      exact keysA_setA_of_none _ hfresh
    have hnd' : (keysA (ensure_item dm db al).2.1.slug_index).Nodup := by
      rw [hkeys]
      refine List.Nodup.append hnd (List.nodup_singleton _) ?_
      intro x hx hx'
      rw [List.mem_singleton] at hx'
      subst hx'
      have := (mem_keysA_iff_lookupA _ _).mp hx
      rw [hfresh] at this
      simp at this
    have hk' : k + 1 ≤ (ensure_item dm db al).2.1.slug_index.length := by
      have h1l : (ensure_item dm db al).2.1.slug_index.length
          = (keysA (ensure_item dm db al).2.1.slug_index).length := by
        simp [keysA]
      have h2l : dm.slug_index.length = (keysA dm.slug_index).length := by
        simp [keysA]
      rw [h1l, hkeys]
      simp only [List.length_append, List.length_singleton]
      omega
    have hbase' : ∀ a ∈ rest,
        (if slugify a = "" then "item" else slugify a) = bp :=
      fun a ha => hbase a (List.mem_cons_of_mem al ha)
    obtain ⟨ihmap, ihnd⟩ := ih (k + 1) (ensure_item dm db al).2.1
      (ensure_item dm db al).2.2 hbase' hrest hge' hlt' hnd' hk'
    constructor
    · show (ensureChain rest (ensure_item dm db al).2.1
          (ensure_item dm db al).2.2).2.items.map (fun r => r.slug) = _
      rw [ihmap, hitems]
      simp only [List.map_append, List.map_cons, List.map_nil,
        List.length_cons, List.range_succ_eq_map, List.map_map]
      rw [List.append_assoc]
      congr 1
      simp only [List.singleton_append, List.cons.injEq]
      refine ⟨by rw [Nat.add_zero], ?_⟩
      apply List.map_congr_left
      intro a ha
      simp only [Function.comp]
      congr 1
      omega
    · show (keysA (ensureChain rest (ensure_item dm db al).2.1
          (ensure_item dm db al).2.2).1.slug_index).Nodup
      exact ihnd

/-- C8: slug disambiguation — when `N` labels all carry the same slug
candidate and each takes the creation branch of `ensure_item` (its token
is unseen at its turn), the `N` created item records receive the
deterministic slug sequence `base`, `base-2`, `base-3`, … (with `"item"`
substituted for an empty candidate), these slugs are pairwise distinct,
and the slug index keeps duplicate-free keys. -/
theorem C8_slug_disambiguation (labels : List String) (base : String)
    (dm : DimState) (db : DB)
    (hbase : ∀ al ∈ labels, slugify al = base)
    (hpath : creationPath labels dm db = true)
    (hfree : ∀ j, lookupA (slugCand (if base = "" then "item" else base) j)
        dm.slug_index = none)
    (hnd : (keysA dm.slug_index).Nodup) :
    (ensureChain labels dm db).2.items.map (fun r => r.slug)
        = db.items.map (fun r => r.slug)
          ++ (List.range labels.length).map
              (fun j => slugCand (if base = "" then "item" else base) j) ∧
    ((List.range labels.length).map
        (fun j => slugCand (if base = "" then "item" else base) j)).Nodup ∧
    (keysA (ensureChain labels dm db).1.slug_index).Nodup := by
  have hbpne : (if base = "" then "item" else base) ≠ "" := by
    split
    · intro hx
      exact absurd hx (by decide)
    · assumption
  have hbase' : ∀ al ∈ labels,
      (if slugify al = "" then "item" else slugify al)
        = (if base = "" then "item" else base) :=
    fun al hal => by rw [hbase al hal]
  obtain ⟨hmap, hndout⟩ := ensureChain_creation _ hbpne labels 0 dm db hbase'
    hpath (fun j _ => hfree j) (fun j hj => absurd hj (Nat.not_lt_zero j)) hnd
    (Nat.zero_le _)
  refine ⟨by simpa using hmap, ?_, hndout⟩
  exact List.Nodup.map (fun a b hab => slugCand_inj hbpne hab)
    (List.nodup_range _)

/-- Witness for C8: the fallback labels "!!", "??", "%%" all slugify to
the empty candidate and create three items slugged "item", "item-2",
"item-3". -/
theorem C8_slug_disambiguation_witness :
    (∀ al ∈ ["!!", "??", "%%"], slugify al = "") ∧
    creationPath ["!!", "??", "%%"] emptyDim ⟨[], [], 1, 1, [], [], []⟩ = true ∧
    (ensureChain ["!!", "??", "%%"] emptyDim
        ⟨[], [], 1, 1, [], [], []⟩).2.items.map (fun r => r.slug)
      = (([], [], 1, 1, [], [], []) : List ItemRec × List RegionRec × Nat ×
          Nat × List RawRow × List (FactKey × Rat) × List RunRec).1.map
            (fun r => r.slug)
        ++ (List.range (["!!", "??", "%%"] : List String).length).map
            (fun j => slugCand (if ("" : String) = "" then "item" else "") j) :=
  ⟨by decide, by decide,
   (C8_slug_disambiguation ["!!", "??", "%%"] "" emptyDim
     ⟨[], [], 1, 1, [], [], []⟩ (by decide) (by decide) (fun j => rfl)
     (by decide)).1⟩

/-! ## Claim C1: ingestion idempotence -/

/-- C1 counterexample: both runs succeed and the raw table grows by the
batch size each time, but re-ingesting the same batch against the same
store does not leave the series table identical — the second run's store
rebuild binds the token "item-2" to the item created by the first run
(whose disambiguated slug is "item-2") instead of the item that lists
"Item-2" as an alias, so a third series row appears. -/
theorem C1_counterexample :
    c1Run1.1 = .ok ⟨1, "success", 2⟩ ∧
    c1Run2.1 = .ok ⟨2, "success", 2⟩ ∧
    c1Run1.2.1.db.series.length = 2 ∧
    c1Run2.2.1.db.series.length = 3 ∧
    c1Run2.2.1.db.series ≠ c1Run1.2.1.db.series ∧
    c1Run1.2.1.db.raw.length = c1Db.raw.length + c1Rows.length ∧
    c1Run2.2.1.db.raw.length = c1Run1.2.1.db.raw.length + c1Rows.length := by
  decide

theorem append_alias_covered {dm : DimState} {db : DB} {i : Nat} {al : String}
    (h : ∀ record : ItemRec, lookupA i dm.itemRecs = some record →
      record.aliases.any (fun e => normalizeAlias e = normalizeAlias al)
        = true) :
    _append_item_alias_if_needed dm db i al = (dm, db) := by
  unfold _append_item_alias_if_needed
  cases hR : lookupA i dm.itemRecs with
  | none => rfl
  | some record =>
    dsimp only
    rw [if_pos (h record hR)]

theorem ensure_item_resolved {dm : DimState} {al : String} (db : DB)
    (h : itemResolvedB dm al = true) :
    ensure_item dm db al
      = ((lookupA (normalizeAlias al) dm.item_alias_index).getD 0, dm, db) := by
  unfold itemResolvedB at h
  cases hA : lookupA (normalizeAlias al) dm.item_alias_index with
  | none =>
    rw [hA] at h
    exact absurd h (by simp)
  | some i =>
    rw [hA] at h
    dsimp only at h
    have happ : _append_item_alias_if_needed dm db i al = (dm, db) :=
      append_alias_covered (fun record hrec => by rw [hrec] at h; exact h)
    rw [ensure_item_hit db hA, happ]
    rfl

theorem ensure_region_hit {dm : DimState} {al : String} {j : Nat} (db : DB)
    (h : lookupA (normalizeAlias al) dm.region_alias_index = some j) :
    ensure_region dm db al = (j, dm, db) := by
  unfold ensure_region
  dsimp only
  rw [h]

theorem ensure_region_resolved {dm : DimState} {al : String} (db : DB)
    (h : regionResolvedB dm al = true) :
    ensure_region dm db al
      = ((lookupA (normalizeAlias al) dm.region_alias_index).getD 0, dm, db) := by
  unfold regionResolvedB at h
  cases hR : lookupA (normalizeAlias al) dm.region_alias_index with
  | none =>
    rw [hR] at h
    exact absurd h (by simp)
  | some j =>
    rw [ensure_region_hit db hR]
    rfl

theorem ingestRowsLoop_resolved :
    ∀ (rows : List Row) (dm : DimState) (db : DB),
    (∀ r ∈ rows, itemResolvedB dm r.item_alias = true ∧
      regionResolvedB dm r.region_alias = true ∧
      dateOk r.year r.month = true) →
    ingestRowsLoop rows dm db
      = .ok (dm, { db with series := applyS (rowKVs dm rows) db.series }) := by
  intro rows
  induction rows with
  | nil =>
    intro dm db hres
    rfl
  | cons r rest ih =>
    intro dm db hres
    obtain ⟨hir, hrr, hdr⟩ := hres r (List.mem_cons_self r rest)
    unfold ingestRowsLoop
    rw [ensure_item_resolved db hir]
    dsimp only
    rw [ensure_region_resolved db hrr]
    dsimp only
    rw [if_pos hdr]
    rw [ih dm _ (fun x hx => hres x (List.mem_cons_of_mem r hx))]
    rfl

theorem loadDims_fields {db db' : DB} (hi : db.items = db'.items)
    (hr : db.regions = db'.regions) : loadDims db = loadDims db' := by
  unfold loadDims
  rw [hi, hr]

theorem attemptTx_resolved {db : DB} (file : String) {rows : List Row}
    (hres : ∀ r ∈ rows, itemResolvedB (loadDims db) r.item_alias = true ∧
      regionResolvedB (loadDims db) r.region_alias = true ∧
      dateOk r.year r.month = true) :
    attemptTx db file rows
      = .ok { db with
              raw := db.raw ++ rows.map (mkRawRow file),
              series := applyS (rowKVs (loadDims db) rows) db.series } := by
  unfold attemptTx
  dsimp only
  have hld : loadDims { db with raw := db.raw ++ rows.map (mkRawRow file) }
      = loadDims db := loadDims_fields rfl rfl
  rw [hld, ingestRowsLoop_resolved rows (loadDims db) _ hres]
  rfl

theorem ingest_sched0 (runId : Nat) (st : Eng) (file checksum : String)
    (rows : List Row) {db' : DB}
    (hatt : attemptTx st.db file rows = .ok db') :
    (ingest_with_engine sched0 runId st file rows checksum).1
        = .ok ⟨runId, "success", rows.length⟩ ∧
    ∃ rr : RunRec, (ingest_with_engine sched0 runId st file rows
        checksum).2.1.db = { db' with runs := db'.runs ++ [rr] } := by
  unfold ingest_with_engine
  rw [show MAX_RETRIES = 0 + 1 + 1 + 1 from rfl]
  dsimp only [appendLog]
  unfold ingestLoop
  try simp only [ingestLoop]
  try dsimp only [appendLog]
  rw [if_neg (by decide), hatt]
  dsimp only [record_run, appendLog]
  rw [if_neg (by decide)]
  exact ⟨rfl, ⟨_, rfl⟩⟩

theorem applyS_cons {κ α : Type} [DecidableEq κ] (kv : κ × α)
    (S : List (κ × α)) (l : List (κ × α)) :
    applyS (kv :: S) l = applyS S (setA kv.1 kv.2 l) := rfl

theorem lookupA_applyS {κ α : Type} [DecidableEq κ] (S : List (κ × α)) :
    ∀ (l : List (κ × α)) (k : κ),
    lookupA k (applyS S l)
      = match lookupA k S.reverse with
        | some v => some v
        | none => lookupA k l := by
  induction S with
  | nil =>
    intro l k
    rfl
  | cons kv S ih =>
    intro l k
    rw [applyS_cons, ih, List.reverse_cons]
    cases hS : lookupA k S.reverse with
    | some v =>
      rw [lookupA_append_left k _ (by rw [hS]; rfl), hS]
    | none =>
      rw [lookupA_append_right k _ hS]
      by_cases hk : k = kv.1
      · rw [hk, lookupA_setA_self]
        have hone : lookupA kv.1 [kv] = some kv.2 := by
          simp [lookupA]
        rw [hone]
      · rw [lookupA_setA_ne _ _ hk]
        have hnone : lookupA k [kv] = none := by
          have hk2 : ¬(kv.1 = k) := fun hx => hk hx.symm
          simp [lookupA, hk2]
        rw [hnone]

theorem mem_keysA_setA_self {κ α : Type} [DecidableEq κ] (k : κ) (v : α)
    (l : List (κ × α)) : k ∈ keysA (setA k v l) :=
  (mem_keysA_iff_lookupA k _).mpr (by rw [lookupA_setA_self]; rfl)

theorem mem_keysA_setA_mono {κ α : Type} [DecidableEq κ] {k' : κ} (k : κ)
    (v : α) (l : List (κ × α)) (h : k' ∈ keysA l) :
    k' ∈ keysA (setA k v l) := by
  by_cases hkk : k' = k
  · subst hkk
    exact mem_keysA_setA_self k' v l
  · refine (mem_keysA_iff_lookupA k' _).mpr ?_
    rw [lookupA_setA_ne _ _ hkk]
    exact (mem_keysA_iff_lookupA k' l).mp h

theorem applyS_mem_mono {κ α : Type} [DecidableEq κ] (S : List (κ × α)) :
    ∀ (l : List (κ × α)) {k : κ}, k ∈ keysA l → k ∈ keysA (applyS S l) := by
  induction S with
  | nil => intro l k h; exact h
  | cons kv S ih =>
    intro l k h
    rw [applyS_cons]
    exact ih _ (mem_keysA_setA_mono kv.1 kv.2 l h)

theorem applyS_mem_of_mem {κ α : Type} [DecidableEq κ] (S : List (κ × α)) :
    ∀ (l : List (κ × α)) (kv : κ × α), kv ∈ S →
      kv.1 ∈ keysA (applyS S l) := by
  induction S with
  | nil =>
    intro l kv h
    exact absurd h (List.not_mem_nil kv)
  | cons e S ih =>
    intro l kv h
    rw [applyS_cons]
    rcases List.mem_cons.mp h with heq | hmem
    · subst heq
      exact applyS_mem_mono S _ (mem_keysA_setA_self kv.1 kv.2 l)
    · exact ih _ kv hmem

theorem keysA_applyS_eq {κ α : Type} [DecidableEq κ] (S : List (κ × α)) :
    ∀ (l : List (κ × α)), (∀ kv ∈ S, kv.1 ∈ keysA l) →
      keysA (applyS S l) = keysA l := by
  induction S with
  | nil => intro l _; rfl
  | cons kv S ih =>
    intro l h
    rw [applyS_cons]
    have hmem := h kv (List.mem_cons_self kv S)
    have hkeys : keysA (setA kv.1 kv.2 l) = keysA l :=
      keysA_setA_of_mem kv.2 ((mem_keysA_iff_lookupA _ _).mp hmem)
    rw [ih _ (fun e he => by
      rw [hkeys]
      exact h e (List.mem_cons_of_mem kv he)), hkeys]

theorem nodup_keysA_setA {κ α : Type} [DecidableEq κ] {k : κ} {v : α}
    {l : List (κ × α)} (h : (keysA l).Nodup) :
    (keysA (setA k v l)).Nodup := by
  by_cases hmem : k ∈ keysA l
  · rw [keysA_setA_of_mem v ((mem_keysA_iff_lookupA _ _).mp hmem)]
    exact h
  · rw [keysA_setA_of_none v (lookupA_eq_none_of_not_mem hmem)]
    refine List.Nodup.append h (List.nodup_singleton k) ?_
    intro x hx hx'
    rw [List.mem_singleton] at hx'
    subst hx'
    exact hmem hx

theorem nodup_keysA_applyS {κ α : Type} [DecidableEq κ] (S : List (κ × α)) :
    ∀ (l : List (κ × α)), (keysA l).Nodup → (keysA (applyS S l)).Nodup := by
  induction S with
  | nil => intro l h; exact h
  | cons kv S ih =>
    intro l h
    rw [applyS_cons]
    exact ih _ (nodup_keysA_setA h)

theorem applyS_idem {κ α : Type} [DecidableEq κ] (S l : List (κ × α))
    (hnd : (keysA l).Nodup) : applyS S (applyS S l) = applyS S l := by
  apply assoc_ext
  · exact keysA_applyS_eq S _ (fun kv hkv => applyS_mem_of_mem S l kv hkv)
  · exact nodup_keysA_applyS S _ (nodup_keysA_applyS S l hnd)
  · intro k
    rw [lookupA_applyS, lookupA_applyS]
    cases hX : lookupA k S.reverse <;> rfl

/-- C1 amended: idempotence holds for batches that fully resolve against
the store — every row's item alias is bound to a record already listing
an equivalent alias, every region alias is bound, dates are valid, and
the series keys are duplicate-free.  Both runs succeed, the second run
leaves the series table identical, and the raw table grows by the batch
size on each run.  (Unrestricted idempotence fails: `C1_counterexample`.) -/
theorem C1_idempotent_reingest (st : Eng) (rows : List Row)
    (file checksum : String) (rid₁ rid₂ : Nat)
    (hres : ∀ r ∈ rows, itemResolvedB (loadDims st.db) r.item_alias = true ∧
      regionResolvedB (loadDims st.db) r.region_alias = true ∧
      dateOk r.year r.month = true)
    (hnd : (keysA st.db.series).Nodup) :
    (ingest_with_engine sched0 rid₁ st file rows checksum).1
        = .ok ⟨rid₁, "success", rows.length⟩ ∧
    (ingest_with_engine sched0 rid₂
        (ingest_with_engine sched0 rid₁ st file rows checksum).2.1 file rows
        checksum).1 = .ok ⟨rid₂, "success", rows.length⟩ ∧
    (ingest_with_engine sched0 rid₂
        (ingest_with_engine sched0 rid₁ st file rows checksum).2.1 file rows
        checksum).2.1.db.series
      = (ingest_with_engine sched0 rid₁ st file rows checksum).2.1.db.series ∧
    (ingest_with_engine sched0 rid₁ st file rows
        checksum).2.1.db.raw.length = st.db.raw.length + rows.length ∧
    (ingest_with_engine sched0 rid₂
        (ingest_with_engine sched0 rid₁ st file rows checksum).2.1 file rows
        checksum).2.1.db.raw.length
      = (ingest_with_engine sched0 rid₁ st file rows
          checksum).2.1.db.raw.length + rows.length := by
  have hatt₁ := attemptTx_resolved file hres
  obtain ⟨hok₁, rr₁, hdb₁⟩ := ingest_sched0 rid₁ st file checksum rows hatt₁
  have hld₁ : loadDims (ingest_with_engine sched0 rid₁ st file rows
      checksum).2.1.db = loadDims st.db := by
    rw [hdb₁]
    exact loadDims_fields rfl rfl
  have hres₂ : ∀ r ∈ rows,
      itemResolvedB (loadDims (ingest_with_engine sched0 rid₁ st file rows
        checksum).2.1.db) r.item_alias = true ∧
      regionResolvedB (loadDims (ingest_with_engine sched0 rid₁ st file rows
        checksum).2.1.db) r.region_alias = true ∧
      dateOk r.year r.month = true := by
    rw [hld₁]
    exact hres
  have hatt₂ := attemptTx_resolved file hres₂
  rw [hld₁] at hatt₂
  obtain ⟨hok₂, rr₂, hdb₂⟩ := ingest_sched0 rid₂ _ file checksum rows hatt₂
  refine ⟨hok₁, hok₂, ?_, ?_, ?_⟩
  · rw [hdb₂]
    show applyS (rowKVs (loadDims st.db) rows)
        ((ingest_with_engine sched0 rid₁ st file rows checksum).2.1.db.series)
      = (ingest_with_engine sched0 rid₁ st file rows checksum).2.1.db.series
    rw [hdb₁]
    show applyS (rowKVs (loadDims st.db) rows)
        (applyS (rowKVs (loadDims st.db) rows) st.db.series)
      = applyS (rowKVs (loadDims st.db) rows) st.db.series
    exact applyS_idem _ _ hnd
  · rw [hdb₁]
    show (st.db.raw ++ rows.map (mkRawRow file)).length
      = st.db.raw.length + rows.length
    simp
  · rw [hdb₂]
    show ((ingest_with_engine sched0 rid₁ st file rows checksum).2.1.db.raw
        ++ rows.map (mkRawRow file)).length
      = (ingest_with_engine sched0 rid₁ st file rows
          checksum).2.1.db.raw.length + rows.length
    simp

/-- Witness for C1 amended: a store with a fully-resolved item and region
and a single valid row. -/
theorem C1_idempotent_reingest_witness :
    (∀ r ∈ [(⟨"Rice", "All India", 2023, 1, 140⟩ : Row)],
      itemResolvedB (loadDims (⟨[⟨1, "rice", "Rice", ["Rice"]⟩],
        [⟨1, "all-india", "All India", "unknown"⟩], 2, 2, [], [], []⟩ : DB))
        r.item_alias = true ∧
      regionResolvedB (loadDims (⟨[⟨1, "rice", "Rice", ["Rice"]⟩],
        [⟨1, "all-india", "All India", "unknown"⟩], 2, 2, [], [], []⟩ : DB))
        r.region_alias = true ∧
      dateOk r.year r.month = true) ∧
    (ingest_with_engine sched0 8
        (ingest_with_engine sched0 7
          ⟨⟨[⟨1, "rice", "Rice", ["Rice"]⟩,],
            [⟨1, "all-india", "All India", "unknown"⟩], 2, 2, [], [], []⟩,
            0, [], 0, 0⟩
          "f" [⟨"Rice", "All India", 2023, 1, 140⟩] "ck").2.1 "f"
        [⟨"Rice", "All India", 2023, 1, 140⟩] "ck").2.1.db.series
      = (ingest_with_engine sched0 7
          ⟨⟨[⟨1, "rice", "Rice", ["Rice"]⟩,],
            [⟨1, "all-india", "All India", "unknown"⟩], 2, 2, [], [], []⟩,
            0, [], 0, 0⟩
          "f" [⟨"Rice", "All India", 2023, 1, 140⟩] "ck").2.1.db.series :=
  ⟨by decide,
   (C1_idempotent_reingest
     ⟨⟨[⟨1, "rice", "Rice", ["Rice"]⟩,],
       [⟨1, "all-india", "All India", "unknown"⟩], 2, 2, [], [], []⟩,
       0, [], 0, 0⟩
     [⟨"Rice", "All India", 2023, 1, 140⟩] "f" "ck" 7 8
     (by decide) (by decide)).2.2.1⟩

end IndiaInflation
